import Mathlib

/-!
Verification of the nodejs-project-manager repository.

The development shallowly embeds the core modules of the repository:

* `src/modules/sftp.js`   — SFTP users and the SSH daemon config fence
  (`generateSftpConfig`, `updateSSHConfig`, `createSftpUser`, `deleteSftpUser`);
* `src/modules/projects.js` — the global projects registry and the per-project
  config documents (`loadProjects`, `saveProjects`, `loadProjectConfig`,
  `saveProjectConfig`, `createProject`, `deleteProject`);
* `src/modules/services.js` — the per-project service list and the PM2
  supervisor adapter (`addService`, `updateService`, `removeService`,
  `getService`, `startService`, `stopService`, `startAllServices`,
  `stopAllServices`);
* `src/utils/shell.js`    — external command execution, modelled by an
  `Oracle` of outcomes and a trace of `Effect`s.

File contents are lists of characters; JavaScript string primitives used by
the source (`indexOf`, `substring`, `trimEnd`, `startsWith`) are embedded as
the executable functions `firstMatch?`, `List.take`/`List.drop`, `trimEnd`
and `leadsWith` below.  `Date` values are abstract `Nat` timestamps supplied
by the oracle.  Node's posix `path.join`/`path.normalize` are embedded as
`nodeJoin`/`nodeNormalize`: non-empty arguments joined with `/`, then the
path is normalized segment-wise (empty and `.` segments dropped, `..`
resolved against the stack, a trailing separator preserved).
-/

/-- Boolean test that `pat` occurs at the very front of `s`
(the embedding of a JavaScript string match at one position). -/
def leadsWith : List Char → List Char → Bool
  | [], _ => true
  | _ :: _, [] => false
  | a :: as, b :: bs => a == b && leadsWith as bs

/-- Number of positions of `s` at which `pat` occurs. -/
def countOccur (pat : List Char) : List Char → Nat
  | [] => 0
  | c :: s => (if leadsWith pat (c :: s) then 1 else 0) + countOccur pat s

/-- Index of the first occurrence of `pat` in `s`; the embedding of
JavaScript `String.prototype.indexOf` (with `none` for `-1`). -/
def firstMatch? (pat : List Char) : List Char → Option Nat
  | [] => if leadsWith pat [] then some 0 else none
  | c :: s => if leadsWith pat (c :: s) then some 0 else (firstMatch? pat s).map (· + 1)

/-- ASCII whitespace as stripped by JavaScript `trimEnd` (the characters that
can actually occur at the end of an sshd config file). -/
def isJsSpace (c : Char) : Bool :=
  c == ' ' || c == '\t' || c == '\n' || c == '\r'

/-- The embedding of JavaScript `String.prototype.trimEnd`. -/
def trimEnd (s : List Char) : List Char :=
  (s.reverse.dropWhile isJsSpace).reverse

/-! Constants from `src/config/constants.js`. -/

def BASE_PATH : String := "/var/www"

def SFTP_USER_PREFIX : String := "sftp_"

def SFTP_GROUP : String := "sftpusers"

def SSH_CONFIG_PATH : String := "/etc/ssh/sshd_config"

def TOOL_CONFIG_PATH : String := "/etc/nodejs-project-manager"

def PROJECTS_CONFIG_FILE : String := "/etc/nodejs-project-manager/projects.json"

/-! Fence markers from `src/modules/sftp.js`. -/

def SFTP_CONFIG_MARKER : String := "# === NODEJS PROJECT MANAGER SFTP CONFIG ==="

def SFTP_CONFIG_END_MARKER : String := "# === END NODEJS PROJECT MANAGER SFTP CONFIG ==="

def markerL : List Char := SFTP_CONFIG_MARKER.toList

def endMarkerL : List Char := SFTP_CONFIG_END_MARKER.toList

/-- One entry of the global registry document
(`{ name, path, sftpUser, createdAt }`). -/
structure RegEntry where
  name : String
  path : String
  sftpUser : String
  createdAt : Nat
deriving DecidableEq, Repr

/-- The text of the fenced block built by `generateSftpConfig` for a
non-empty project list (the block only depends on the shared SFTP group). -/
def sftpFenceText : String :=
  "\n" ++ SFTP_CONFIG_MARKER ++ "\n"
    ++ "# Configuration générée automatiquement - Ne pas modifier manuellement\n\n"
    ++ "Match Group " ++ SFTP_GROUP ++ "\n"
    ++ "    ChrootDirectory %h\n"
    ++ "    ForceCommand internal-sftp\n"
    ++ "    AllowTcpForwarding no\n"
    ++ "    X11Forwarding no\n"
    ++ "    PasswordAuthentication yes\n"
    ++ "\n" ++ SFTP_CONFIG_END_MARKER ++ "\n"

/-- The fence text without its leading newline. -/
def fenceCore : List Char := sftpFenceText.toList.drop 1

/-- Embedding of `generateSftpConfig(projects)`: the empty string when the
project list is empty, the fixed fenced block otherwise. -/
def generateSftpConfig (projects : List RegEntry) : List Char :=
  if projects.isEmpty then [] else sftpFenceText.toList

/-- The excision step of `updateSSHConfig` (lines 166-172 of the sftp module):
when both markers are found, cut from the first start marker to the end of the
first end marker. -/
def stripOldFence (sshConfig : List Char) : List Char :=
  match firstMatch? markerL sshConfig, firstMatch? endMarkerL sshConfig with
  | some startIndex, some endIndex =>
      sshConfig.take startIndex ++ sshConfig.drop (endIndex + endMarkerL.length)
  | _, _ => sshConfig

/-- The content transformation performed by `updateSSHConfig(projects)`:
excise the old fence, trim trailing whitespace, append the regenerated
fence. -/
def updateSSHConfigContent (sshConfig : List Char) (projects : List RegEntry) : List Char :=
  trimEnd (stripOldFence sshConfig) ++ generateSftpConfig projects

/-- Contents in which neither fence marker occurs. -/
def fenceFree (s : List Char) : Prop :=
  countOccur markerL s = 0 ∧ countOccur endMarkerL s = 0

instance (s : List Char) : Decidable (fenceFree s) := by
  unfold fenceFree; infer_instance

/-! The world model: observable state touched by the tool, external command
outcomes (an `Oracle`), and the trace of side effects (`Effect`). -/

/-- Structured identities of the errors thrown by the embedded modules (the
French message texts of the source are abstracted to their identity). -/
inductive Err where
  | invalidProjectName
  | duplicateProject (name : String)
  | dirAlreadyExists (path : String)
  | userAlreadyExists (username : String)
  | cmdFailed (cmd : String)
  | invalidSSHConfig
  | sshRestartFailed
  | projectNotFound (name : String)
  | serviceNotFound (name : String)
  | invalidServiceName
  | duplicateService (name : String)
  | serviceDirMissing (dir : String)
  | setupCmdFailed (cmd : String)
  | pm2Failed (args : String)
  | noServices
deriving DecidableEq, Repr

/-- Observable side effects issued to the outside world. -/
inductive Effect where
  | exec (cmd : String) (ok : Bool)
  | pm2 (args : String) (ok : Bool)
  | copyFile (src dst : String)
  | writeFile (path : String)
  | sshdTest (ok : Bool)
  | logError (msg : String)
  | logWarn (msg : String)
deriving DecidableEq, Repr

/-- A service record of a per-project config document. -/
structure Service where
  name : String
  directory : String
  setupCommands : List String
  command : String
  description : String
  pm2Name : String
  createdAt : Nat
  updatedAt : Option Nat
deriving DecidableEq, Repr

/-- A per-project `project.json` document. -/
structure ProjectConfig where
  name : String
  path : Option String
  sftpUser : Option String
  services : List Service
  createdAt : Nat
  updatedAt : Option Nat
deriving DecidableEq, Repr

/-- State of a per-project config file on disk. -/
inductive PFile where
  | absent
  | unparseable
  | parsed (cfg : ProjectConfig)
deriving DecidableEq, Repr

/-- State of the global registry document on disk: missing, unreadable,
not valid JSON, or a parsed document (whose `projects` key may be absent). -/
inductive RegFile where
  | absent
  | unreadable
  | malformed
  | doc (projects : Option (List RegEntry))
deriving DecidableEq, Repr

/-- The modelled world: registry document, per-project config files (keyed by
project name, standing for `<BASE_PATH>/<name>/project.json`), existing
filesystem paths, OS users and groups, and the sshd config content. -/
structure World where
  regFile : RegFile
  pfiles : List (String × PFile)
  fsPaths : List String
  users : List String
  groups : List String
  sshConfig : List Char
deriving DecidableEq, Repr

/-- Outcomes of the external systems: success of arbitrary shell commands, of
PM2 commands, presence of a process name in the PM2 list, the `sshd -t`
verdict, and the current timestamp. -/
structure Oracle where
  execOk : String → Bool
  pm2Ok : String → Bool
  pm2Has : String → Bool
  sshdTestOk : Bool
  now : Nat

/-- JavaScript `x || d` for an optional string field: both a missing field and
the empty string are falsy. -/
def jsOrString : Option String → String → String
  | none, d => d
  | some s, d => if s = "" then d else s

/-- Split a character list at every `/`, keeping empty segments (the
segment scan of Node's `normalizeString`). -/
def splitSlash : List Char → List (List Char)
  | [] => [[]]
  | c :: rest =>
    if c = '/' then [] :: splitSlash rest
    else
      match splitSlash rest with
      | seg :: segs => (c :: seg) :: segs
      | [] => [[c]]

/-- The segment resolution loop of Node's `normalizeString`: empty and `.`
segments are dropped; `..` pops the previous segment, and above the root it
is kept for relative paths (`allowAboveRoot`) and dropped for absolute
ones. -/
def normStack (allowAboveRoot : Bool) (acc : List (List Char)) :
    List (List Char) → List (List Char)
  | [] => acc.reverse
  | seg :: rest =>
    if seg = [] ∨ seg = ['.'] then normStack allowAboveRoot acc rest
    else if seg = ['.', '.'] then
      match acc with
      | top :: acc' =>
        if top = ['.', '.'] then
          if allowAboveRoot then normStack allowAboveRoot (['.', '.'] :: top :: acc') rest
          else normStack allowAboveRoot (top :: acc') rest
        else normStack allowAboveRoot acc' rest
      | [] =>
        if allowAboveRoot then normStack allowAboveRoot [['.', '.']] rest
        else normStack allowAboveRoot [] rest
    else normStack allowAboveRoot (seg :: acc) rest

/-- Rejoin segments with `/`. -/
def intercalSlash : List (List Char) → List Char
  | [] => []
  | [seg] => seg
  | seg :: rest => seg ++ '/' :: intercalSlash rest

/-- Embedding of Node's posix `path.normalize`: record absoluteness and a
trailing separator, resolve the segments, reassemble. -/
def nodeNormalize (s : List Char) : List Char :=
  if s = [] then ['.']
  else
    let isAbs := leadsWith ['/'] s
    let trailingSep := s.reverse.head? == some '/'
    let core := intercalSlash (normStack (!isAbs) [] (splitSlash s))
    if core = [] then
      if isAbs then ['/'] else if trailingSep then ['.', '/'] else ['.']
    else
      let core2 := if trailingSep then core ++ ['/'] else core
      if isAbs then '/' :: core2 else core2

/-- Embedding of Node's posix `path.join`: drop empty arguments, join the
rest with `/`, normalize; with no non-empty argument the result is `.`. -/
def nodeJoin (parts : List String) : String :=
  match parts.filter (fun p => p != "") with
  | [] => "."
  | q => String.mk (nodeNormalize (intercalSlash (q.map (fun p => p.data))))

/-- The two-argument `path.join` calls of the source. -/
def pathJoin (a b : String) : String := nodeJoin [a, b]

/-- Relative paths already in normal form: every `/`-separated segment is
non-empty and neither `.` nor `..` (this excludes a leading, trailing or
doubled slash). -/
def plainRel (d : String) : Bool :=
  (splitSlash d.data).all
    (fun seg => !(seg == []) && !(seg == ['.']) && !(seg == ['.', '.']))

/-- JavaScript `directory.startsWith('/')`. -/
def startsSlash (s : String) : Bool := leadsWith ['/'] s.data

/-- The `SFTP_USER_PREFIX` constant of `constants.js`. -/
def SFTP_USER_PRE : String := "sftp_"

def PROJECT_STRUCTURE_sites : String := "sites"

def PROJECT_STRUCTURE_scripts : String := "scripts"

def PROJECT_STRUCTURE_config : String := "project.json"

/-! Embedding of `src/utils/shell.js`. -/

/-- Embedding of `shell.execCommand`: the oracle decides success; a failure
becomes a raised error. -/
def execCommandW (o : Oracle) (cmd : String) : List Effect × Option Err :=
  ([.exec cmd (o.execOk cmd)], if o.execOk cmd then none else some (.cmdFailed cmd))

/-- Run a sequence of `execCommand` calls, aborting at the first failure. -/
def execSeqW (o : Oracle) : List String → List Effect × Option Err
  | [] => ([], none)
  | c :: rest =>
    if o.execOk c then
      let r := execSeqW o rest
      (.exec c true :: r.1, r.2)
    else ([.exec c false], some (.cmdFailed c))

/-- Embedding of `shell.pm2Command(args)`. -/
def pm2CommandW (o : Oracle) (args : String) : List Effect × Option Err :=
  ([.pm2 args (o.pm2Ok args)], if o.pm2Ok args then none else some (.pm2Failed args))

/-- Embedding of `shell.getPm2ProcessStatus(processName)`: a `pm2 jlist` call
whose parsed result either contains the name or not; failures yield absence,
never an error. -/
def getPm2ProcessStatusW (o : Oracle) (processName : String) : List Effect × Bool :=
  ([.pm2 "jlist" true], o.pm2Has processName)

/-- Embedding of `shell.testSSHConfig` (`sshd -t`): reports validity as a
boolean, never raises. -/
def testSSHConfigW (o : Oracle) : List Effect × Bool :=
  ([.sshdTest o.sshdTestOk], o.sshdTestOk)

/-- Embedding of `shell.restartSSH`: try `systemctl restart sshd`, fall back
to `systemctl restart ssh`, raise only if both fail. -/
def restartSSHW (o : Oracle) : List Effect × Option Err :=
  if o.execOk "systemctl restart sshd" then
    ([.exec "systemctl restart sshd" true], none)
  else if o.execOk "systemctl restart ssh" then
    ([.exec "systemctl restart sshd" false, .exec "systemctl restart ssh" true], none)
  else
    ([.exec "systemctl restart sshd" false, .exec "systemctl restart ssh" false],
      some .sshRestartFailed)

/-! Embedding of `src/modules/sftp.js`. -/

/-- Embedding of `writeSSHConfig(content)`: a timestamped backup copy of the
config file is taken before the new content is written. -/
def writeSSHConfigW (o : Oracle) (content : List Char) (w : World) : World × List Effect :=
  ({ w with sshConfig := content },
    [.copyFile SSH_CONFIG_PATH (SSH_CONFIG_PATH ++ ".backup." ++ toString o.now),
     .writeFile SSH_CONFIG_PATH])

/-- Embedding of `updateSSHConfig(projects)`: rewrite the fenced block via
`updateSSHConfigContent`, write (with backup), validate with `sshd -t`, raise
on an invalid config, restart the daemon otherwise. -/
def updateSSHConfigW (o : Oracle) (projects : List RegEntry) (w : World) :
    World × List Effect × Option Err :=
  let r1 := writeSSHConfigW o (updateSSHConfigContent w.sshConfig projects) w
  let r2 := testSSHConfigW o
  if r2.2 then
    let r3 := restartSSHW o
    (r1.1, r1.2 ++ r2.1 ++ r3.1, r3.2)
  else
    (r1.1, r1.2 ++ r2.1, some .invalidSSHConfig)

/-- Embedding of `ensureSftpGroup`. -/
def ensureSftpGroupW (o : Oracle) (w : World) : World × List Effect × Option Err :=
  if w.groups.contains SFTP_GROUP then (w, [], none)
  else
    let cmd := "groupadd " ++ SFTP_GROUP
    if o.execOk cmd then
      ({ w with groups := w.groups ++ [SFTP_GROUP] }, [.exec cmd true], none)
    else (w, [.exec cmd false], some (.cmdFailed cmd))

/-- Embedding of `createSftpUser(projectName, password)`. -/
def createSftpUserW (o : Oracle) (projectName password : String) (w : World) :
    World × List Effect × Except Err String :=
  let username := SFTP_USER_PRE ++ projectName
  let projectPath := pathJoin BASE_PATH projectName
  let sitesPath := pathJoin projectPath PROJECT_STRUCTURE_sites
  if w.users.contains username then (w, [], .error (.userAlreadyExists username))
  else
    match ensureSftpGroupW o w with
    | (w1, fx1, some e) => (w1, fx1, .error e)
    | (w1, fx1, none) =>
      let c1 := "useradd -g " ++ SFTP_GROUP ++ " -d " ++ projectPath
          ++ " -s /usr/sbin/nologin " ++ username
      if o.execOk c1 = false then
        (w1, fx1 ++ [.exec c1 false], .error (.cmdFailed c1))
      else
        let w2 := { w1 with users := w1.users ++ [username] }
        let rest := execSeqW o
          [ "echo \"" ++ username ++ ":" ++ password ++ "\" | chpasswd",
            "chown root:root " ++ projectPath,
            "chmod 755 " ++ projectPath,
            "chown " ++ username ++ ":" ++ SFTP_GROUP ++ " " ++ sitesPath,
            "chmod 755 " ++ sitesPath ]
        match rest.2 with
        | some e => (w2, fx1 ++ [.exec c1 true] ++ rest.1, .error e)
        | none => (w2, fx1 ++ [.exec c1 true] ++ rest.1, .ok username)

/-- Embedding of `deleteSftpUser(projectName)`: a missing user is a warned
no-op; the processes of the user are killed best-effort (`pkill` failures are
swallowed); only a `userdel` failure raises. -/
def deleteSftpUserW (o : Oracle) (projectName : String) (w : World) :
    World × List Effect × Option Err :=
  let username := SFTP_USER_PRE ++ projectName
  if w.users.contains username = false then
    (w, [.logWarn ("utilisateur absent: " ++ username)], none)
  else
    let pk := "pkill -u " ++ username
    let ud := "userdel " ++ username
    if o.execOk ud then
      ({ w with users := w.users.filter (fun u => u != username) },
        [.exec pk (o.execOk pk), .exec ud true], none)
    else
      (w, [.exec pk (o.execOk pk), .exec ud false], some (.cmdFailed ud))

/-! Embedding of `src/modules/projects.js`. -/

/-- Embedding of `initConfigDir`: create the tool config directory and an
empty `{ projects: [] }` document when the registry file is missing. -/
def initConfigDirW (w : World) : World × List Effect :=
  match w.regFile with
  | .absent => ({ w with regFile := .doc (some []) }, [.writeFile PROJECTS_CONFIG_FILE])
  | _ => (w, [])

/-- Embedding of `loadProjects()`: init the scaffolding, read and parse the
registry; an unreadable or malformed document degrades to `[]` with a logged
error (the surrounding try/catch of the source), and a parsed document
without a `projects` key yields `[]` through `config.projects || []`. -/
def loadProjectsW (w : World) : World × List Effect × List RegEntry :=
  let r := initConfigDirW w
  match r.1.regFile with
  | .doc (some ps) => (r.1, r.2, ps)
  | .doc none => (r.1, r.2, [])
  | _ => (r.1, r.2 ++ [.logError "Erreur lors du chargement des projets"], [])

/-- Embedding of `saveProjects(projects)` (the `updatedAt` stamp lives only
inside the serialized document). -/
def saveProjectsW (projects : List RegEntry) (w : World) : World × List Effect :=
  let r := initConfigDirW w
  ({ r.1 with regFile := .doc (some projects) }, r.2 ++ [.writeFile PROJECTS_CONFIG_FILE])

/-- The per-project config file looked up by project name. -/
def lookupPFile (w : World) (projectName : String) : PFile :=
  match w.pfiles.find? (fun e => e.1 == projectName) with
  | some e => e.2
  | none => .absent

/-- Store a per-project config file. -/
def setPFile (w : World) (projectName : String) (pf : PFile) : World :=
  { w with pfiles := (projectName, pf) :: w.pfiles.filter (fun e => e.1 != projectName) }

/-- The fresh default config returned by `loadProjectConfig` for a missing or
unparseable file (`services: []`, current timestamp). -/
def defaultProjectConfig (projectName : String) (now : Nat) : ProjectConfig :=
  { name := projectName, path := none, sftpUser := none, services := [],
    createdAt := now, updatedAt := none }

/-- The value returned by `loadProjectConfig(projectName)` (never raises). -/
def loadProjectConfigPure (w : World) (projectName : String) (now : Nat) : ProjectConfig :=
  match lookupPFile w projectName with
  | .parsed cfg => cfg
  | .absent => defaultProjectConfig projectName now
  | .unparseable => defaultProjectConfig projectName now

/-- Embedding of `loadProjectConfig` including its warning on a file that
exists but cannot be parsed. -/
def loadProjectConfigW (w : World) (projectName : String) (now : Nat) :
    List Effect × ProjectConfig :=
  match lookupPFile w projectName with
  | .parsed cfg => ([], cfg)
  | .absent => ([], defaultProjectConfig projectName now)
  | .unparseable =>
      ([.logWarn "Erreur lors du chargement de la config du projet"],
        defaultProjectConfig projectName now)

/-- The path of a per-project config document. -/
def projectConfigPath (projectName : String) : String :=
  nodeJoin [BASE_PATH, projectName, PROJECT_STRUCTURE_config]

/-- Embedding of `saveProjectConfig(projectName, config)`: stamps `updatedAt`
and writes the document. -/
def saveProjectConfigW (o : Oracle) (projectName : String) (cfg : ProjectConfig)
    (w : World) : World × List Effect :=
  (setPFile w projectName (.parsed { cfg with updatedAt := some o.now }),
    [.writeFile (projectConfigPath projectName)])

/-- The identifier pattern `^[a-zA-Z][a-zA-Z0-9_-]*$` of project and service
name validation. -/
def validName (s : String) : Bool :=
  match s.data with
  | [] => false
  | c :: cs =>
    c.isAlpha && cs.all (fun d => d.isAlpha || d.isDigit || d == '_' || d == '-')

/-- Embedding of `createProject(projectName, sftpPassword)`: validate the
name, reject a registered duplicate, reject an existing directory, create the
directory tree, create the SFTP user, write the per-project config, append to
and save the registry, regenerate the SSH config. -/
def createProjectW (o : Oracle) (projectName sftpPassword : String) (w : World) :
    World × List Effect × Option Err :=
  if validName projectName = false then (w, [], some .invalidProjectName)
  else
    match loadProjectsW w with
    | (w1, fx1, ps0) =>
      if (ps0.find? (fun p => p.name == projectName)).isSome then
        (w1, fx1, some (.duplicateProject projectName))
      else
        let projectPath := pathJoin BASE_PATH projectName
        if w1.fsPaths.contains projectPath then
          (w1, fx1, some (.dirAlreadyExists projectPath))
        else
          let sitesPath := pathJoin projectPath PROJECT_STRUCTURE_sites
          let scriptsPath := pathJoin projectPath PROJECT_STRUCTURE_scripts
          let w2 := { w1 with fsPaths := w1.fsPaths ++ [projectPath, sitesPath, scriptsPath] }
          match createSftpUserW o projectName sftpPassword w2 with
          | (w3, fx3, .error e) => (w3, fx1 ++ fx3, some e)
          | (w3, fx3, .ok sftpUsername) =>
            let projectCfg : ProjectConfig :=
              { name := projectName, path := some projectPath,
                sftpUser := some sftpUsername, services := [],
                createdAt := o.now, updatedAt := none }
            match saveProjectConfigW o projectName projectCfg w3 with
            | (w4, fx4) =>
              match loadProjectsW w4 with
              | (w5, fx5, ps1) =>
                let newEntry : RegEntry :=
                  { name := projectName, path := projectPath,
                    sftpUser := sftpUsername, createdAt := o.now }
                let ps2 := ps1 ++ [newEntry]
                match saveProjectsW ps2 w5 with
                | (w6, fx6) =>
                  match updateSSHConfigW o ps2 w6 with
                  | (w7, fx7, err) =>
                    (w7, fx1 ++ fx3 ++ fx4 ++ fx5 ++ fx6 ++ fx7, err)

/-- Effects of the best-effort `pm2 delete` loop of `deleteProject` (each
iteration swallows its own failure). -/
def pm2DeleteLoopFx (o : Oracle) (projectName : String) : List Service → List Effect
  | [] => []
  | s :: rest =>
    (pm2CommandW o ("delete " ++ (projectName ++ "-" ++ s.name))).1
      ++ pm2DeleteLoopFx o projectName rest

/-- Embedding of `deleteProject(projectName, deleteFiles)`: require existence,
best-effort delete every declared service from PM2, delete the SFTP user,
remove the entry from the registry and save, regenerate the SSH config, and
optionally remove the project tree. -/
def deleteProjectW (o : Oracle) (projectName : String) (deleteFiles : Bool) (w : World) :
    World × List Effect × Option Err :=
  match loadProjectsW w with
  | (w1, fx1, ps0) =>
    match ps0.find? (fun p => p.name == projectName) with
    | none => (w1, fx1, some (.projectNotFound projectName))
    | some _ =>
      let rc := loadProjectConfigW w1 projectName o.now
      let fx2 := rc.1 ++ pm2DeleteLoopFx o projectName rc.2.services
      match deleteSftpUserW o projectName w1 with
      | (w2, fx3, some e) => (w2, fx1 ++ fx2 ++ fx3, some e)
      | (w2, fx3, none) =>
        match loadProjectsW w2 with
        | (w3, fx4, ps1) =>
          let ps2 := ps1.filter (fun p => p.name != projectName)
          match saveProjectsW ps2 w3 with
          | (w4, fx5) =>
            match updateSSHConfigW o ps2 w4 with
            | (w5, fx6, some e) => (w5, fx1 ++ fx2 ++ fx3 ++ fx4 ++ fx5 ++ fx6, some e)
            | (w5, fx6, none) =>
              let fxAll := fx1 ++ fx2 ++ fx3 ++ fx4 ++ fx5 ++ fx6
              if deleteFiles then
                let projectPath := pathJoin BASE_PATH projectName
                if w5.fsPaths.contains projectPath then
                  ({ w5 with
                      fsPaths := w5.fsPaths.filter (fun d =>
                        !(d == projectPath
                          || leadsWith (projectPath ++ "/").data d.data)),
                      pfiles := w5.pfiles.filter (fun e => e.1 != projectName) },
                    fxAll, none)
                else (w5, fxAll, none)
              else (w5, fxAll, none)

/-! Embedding of `src/modules/services.js`. -/

/-- Directory resolution of `addService`/`updateService`: an absolute path is
kept, a relative one is resolved under `<BASE_PATH>/<project>/sites/`. -/
def resolveServiceDir (projectName directory : String) : String :=
  if startsSlash directory then directory
  else nodeJoin [BASE_PATH, projectName, PROJECT_STRUCTURE_sites, directory]

/-- The `serviceConfig` argument of `addService` (optional fields may be
missing, i.e. `undefined`). -/
structure ServiceParams where
  name : String
  directory : String
  command : Option String
  description : Option String
  setupCommands : Option (List String)
deriving DecidableEq, Repr

/-- The service record built and stored by `addService`. -/
def mkService (projectName : String) (p : ServiceParams) (now : Nat) : Service :=
  { name := p.name,
    directory := resolveServiceDir projectName p.directory,
    setupCommands := p.setupCommands.getD [],
    command := jsOrString p.command "npm start",
    description := p.description.getD "",
    pm2Name := projectName ++ "-" ++ p.name,
    createdAt := now, updatedAt := none }

/-- The pure registry transformation of `addService`: validate the name,
reject a duplicate, append the new record. -/
def addServiceSvcs (projectName : String) (p : ServiceParams) (now : Nat)
    (svcs : List Service) : Except Err (List Service) :=
  if validName p.name = false then .error .invalidServiceName
  else if svcs.any (fun s => s.name == p.name) then .error (.duplicateService p.name)
  else .ok (svcs ++ [mkService projectName p now])

/-- Embedding of `addService(projectName, serviceConfig)`: the registry
transformation above plus creating the service directory when missing and
saving the per-project config. -/
def addServiceW (o : Oracle) (projectName : String) (p : ServiceParams) (w : World) :
    World × List Effect × Except Err Service :=
  let cfg := loadProjectConfigPure w projectName o.now
  match addServiceSvcs projectName p o.now cfg.services with
  | .error e => (w, [], .error e)
  | .ok svcs' =>
    let servicePath := resolveServiceDir projectName p.directory
    let w1 := if w.fsPaths.contains servicePath then w
              else { w with fsPaths := w.fsPaths ++ [servicePath] }
    match saveProjectConfigW o projectName { cfg with services := svcs' } w1 with
    | (w2, fx) => (w2, fx, .ok (mkService projectName p o.now))

/-- The `updates` argument of `updateService`. -/
structure ServiceUpdates where
  directory : Option String
  command : Option String
  setupCommands : Option (List String)
  description : Option String
deriving DecidableEq, Repr

/-- The field updates applied by `updateService` (JavaScript truthiness: a
missing or empty `directory`/`command` is skipped, `setupCommands` and
`description` are applied whenever not `undefined`); the `name` and `pm2Name`
fields are never touched. -/
def applyUpdates (projectName : String) (u : ServiceUpdates) (now : Nat)
    (s : Service) : Service :=
  { s with
    directory := match u.directory with
      | some d => if d = "" then s.directory else resolveServiceDir projectName d
      | none => s.directory,
    command := match u.command with
      | some c => if c = "" then s.command else c
      | none => s.command,
    setupCommands := match u.setupCommands with
      | some l => l
      | none => s.setupCommands,
    description := match u.description with
      | some d => d
      | none => s.description,
    updatedAt := some now }

/-- Apply `f` to the first service named `sname` (the `findIndex` plus
in-place element mutation of `updateService`). -/
def updateFirstSvc (sname : String) (f : Service → Service) :
    List Service → Option (List Service)
  | [] => none
  | s :: rest =>
    if s.name == sname then some (f s :: rest)
    else (updateFirstSvc sname f rest).map (fun l => s :: l)

/-- Remove the first service named `sname` (the `findIndex` plus `splice` of
`removeService`). -/
def removeFirstSvc (sname : String) : List Service → Option (List Service)
  | [] => none
  | s :: rest =>
    if s.name == sname then some rest
    else (removeFirstSvc sname rest).map (fun l => s :: l)

/-- Embedding of `updateService(projectName, serviceName, updates)`. -/
def updateServiceW (o : Oracle) (projectName serviceName : String)
    (u : ServiceUpdates) (w : World) : World × List Effect × Option Err :=
  let cfg := loadProjectConfigPure w projectName o.now
  match updateFirstSvc serviceName (applyUpdates projectName u o.now) cfg.services with
  | none => (w, [], some (.serviceNotFound serviceName))
  | some svcs' =>
    match saveProjectConfigW o projectName { cfg with services := svcs' } w with
    | (w1, fx) => (w1, fx, none)

/-- Embedding of `getService(projectName, serviceName)`. -/
def getServiceW (o : Oracle) (w : World) (projectName serviceName : String) :
    Option Service :=
  (loadProjectConfigPure w projectName o.now).services.find?
    (fun s => s.name == serviceName)

/-- Embedding of `listServices(projectName)`. -/
def listServicesW (o : Oracle) (w : World) (projectName : String) : List Service :=
  (loadProjectConfigPure w projectName o.now).services

/-- Embedding of `runSetupCommands(service)`: run the setup commands in
order, abort at the first failing one. -/
def runSetupGo (o : Oracle) : List String → List Effect × Option Err
  | [] => ([], none)
  | c :: rest =>
    if o.execOk c then
      let r := runSetupGo o rest
      (.exec c true :: r.1, r.2)
    else ([.exec c false], some (.setupCmdFailed c))

/-- The `pm2 start` argument string built by `startService`. -/
def pm2StartArgs (command pm2Name directory : String) : String :=
  "start \"" ++ command ++ "\" --name \"" ++ pm2Name ++ "\" --cwd \""
    ++ directory ++ "\""

/-- `service.pm2Name || projectName-serviceName` (the empty string standing
for a record without the field). -/
def pm2NameOf (projectName serviceName : String) (svc : Service) : String :=
  if svc.pm2Name = "" then projectName ++ "-" ++ serviceName else svc.pm2Name

/-- Embedding of `startService(projectName, serviceName, runSetup)`: require
the record and its directory, optionally run setup, then restart when the
PM2 list has the name and start fresh otherwise, followed by `pm2 save`. -/
def startServiceW (o : Oracle) (projectName serviceName : String) (runSetup : Bool)
    (w : World) : List Effect × Option Err :=
  match getServiceW o w projectName serviceName with
  | none => ([], some (.serviceNotFound serviceName))
  | some svc =>
    if w.fsPaths.contains svc.directory = false then
      ([], some (.serviceDirMissing svc.directory))
    else
      match (if runSetup then runSetupGo o svc.setupCommands else ([], none)) with
      | (fx1, some e) => (fx1, some e)
      | (fx1, none) =>
        let nm := pm2NameOf projectName serviceName svc
        let rs := getPm2ProcessStatusW o nm
        if rs.2 then
          match pm2CommandW o ("restart " ++ nm) with
          | (fx3, some e) => (fx1 ++ rs.1 ++ fx3, some e)
          | (fx3, none) =>
            let r4 := pm2CommandW o "save"
            (fx1 ++ rs.1 ++ fx3 ++ r4.1, r4.2)
        else
          match pm2CommandW o (pm2StartArgs svc.command nm svc.directory) with
          | (fx3, some e) => (fx1 ++ rs.1 ++ fx3, some e)
          | (fx3, none) =>
            let r4 := pm2CommandW o "save"
            (fx1 ++ rs.1 ++ fx3 ++ r4.1, r4.2)

/-- Embedding of `stopService(projectName, serviceName)`. -/
def stopServiceW (o : Oracle) (w : World) (projectName serviceName : String) :
    List Effect × Option Err :=
  match getServiceW o w projectName serviceName with
  | none => ([], some (.serviceNotFound serviceName))
  | some svc =>
    let nm := pm2NameOf projectName serviceName svc
    match pm2CommandW o ("stop " ++ nm) with
    | (fx1, some e) => (fx1, some e)
    | (fx1, none) =>
      let r2 := pm2CommandW o "save"
      (fx1 ++ r2.1, r2.2)

/-- The loop of `stopAllServices`: each iteration runs in a try/catch that
logs a failure and continues with the next service. -/
def stopAllGo (o : Oracle) (w : World) (projectName : String) :
    List Service → List Effect
  | [] => []
  | s :: rest =>
    (match stopServiceW o w projectName s.name with
      | (fx, none) => fx
      | (fx, some _) => fx ++ [.logError ("Erreur pour " ++ s.name)])
      ++ stopAllGo o w projectName rest

/-- Embedding of `stopAllServices(projectName)`: silently returns on an empty
service list, otherwise best-effort stops every declared service in order;
never raises. -/
def stopAllServicesW (o : Oracle) (w : World) (projectName : String) : List Effect :=
  let svcs := listServicesW o w projectName
  if svcs.isEmpty then [] else stopAllGo o w projectName svcs

/-- The loop of `startAllServices` (same best-effort shape as the stop
loop). -/
def startAllGo (o : Oracle) (w : World) (projectName : String) (runSetup : Bool) :
    List Service → List Effect
  | [] => []
  | s :: rest =>
    (match startServiceW o projectName s.name runSetup w with
      | (fx, none) => fx
      | (fx, some _) => fx ++ [.logError ("Erreur pour " ++ s.name)])
      ++ startAllGo o w projectName runSetup rest

/-- Embedding of `startAllServices(projectName, runSetup)`: raises when the
project has no configured service, otherwise best-effort starts them all. -/
def startAllServicesW (o : Oracle) (w : World) (projectName : String)
    (runSetup : Bool) : List Effect × Option Err :=
  let svcs := listServicesW o w projectName
  if svcs.isEmpty then ([], some .noServices)
  else (startAllGo o w projectName runSetup svcs, none)

/-- Embedding of `removeService(projectName, serviceName)`: best-effort stop,
best-effort `pm2 delete`, then splice the record out and save. -/
def removeServiceW (o : Oracle) (projectName serviceName : String) (w : World) :
    World × List Effect × Option Err :=
  let cfg := loadProjectConfigPure w projectName o.now
  match cfg.services.find? (fun s => s.name == serviceName),
      removeFirstSvc serviceName cfg.services with
  | some svc, some svcs' =>
    let fx1 := (stopServiceW o w projectName serviceName).1
    let fx2 := (pm2CommandW o ("delete " ++ svc.pm2Name)).1
    match saveProjectConfigW o projectName { cfg with services := svcs' } w with
    | (w1, fx3) => (w1, fx1 ++ fx2 ++ fx3, none)
  | _, _ => (w, [], some (.serviceNotFound serviceName))

/-- Per-project service lists reachable through the registry operations
(`addService`, `updateService`, `removeService`) from the fresh default
config of `loadProjectConfig`. -/
inductive ReachableSvcs (projectName : String) : List Service → Prop where
  | nil : ReachableSvcs projectName []
  | add {svcs svcs' : List Service} {p : ServiceParams} {now : Nat} :
      ReachableSvcs projectName svcs →
      addServiceSvcs projectName p now svcs = .ok svcs' →
      ReachableSvcs projectName svcs'
  | update {svcs svcs' : List Service} {sname : String} {u : ServiceUpdates} {now : Nat} :
      ReachableSvcs projectName svcs →
      updateFirstSvc sname (applyUpdates projectName u now) svcs = some svcs' →
      ReachableSvcs projectName svcs'
  | remove {svcs svcs' : List Service} {sname : String} :
      ReachableSvcs projectName svcs →
      removeFirstSvc sname svcs = some svcs' →
      ReachableSvcs projectName svcs'

/-! Concrete fixtures used by witnesses and counterexamples. -/

/-- A world with an empty registry and nothing else. -/
def emptyWorld : World :=
  { regFile := .doc (some []), pfiles := [], fsPaths := [], users := [],
    groups := [], sshConfig := [] }

/-- An oracle where every external command succeeds and PM2 knows no
process. -/
def okOracle : Oracle :=
  { execOk := fun _ => true, pm2Ok := fun _ => true, pm2Has := fun _ => false,
    sshdTestOk := true, now := 0 }

/-- An oracle whose `sshd -t` rejects the written config. -/
def testFailOracle : Oracle := { okOracle with sshdTestOk := false }

/-- A registry containing an entry whose name does not match the identifier
pattern (the registry file is plain JSON and is not validated on load). -/
def regWorld9bad : World :=
  { emptyWorld with
    regFile := .doc (some
      [{ name := "9bad", path := "/var/www/9bad", sftpUser := "sftp_9bad",
         createdAt := 0 }]) }

/-- A declared service of project `demo` whose PM2 entry exists. -/
def demoApiService : Service :=
  { name := "api", directory := "/var/www/demo/sites/api", setupCommands := [],
    command := "node server.js", description := "", pm2Name := "demo-api",
    createdAt := 0, updatedAt := none }

/-- The registry entry of project `demo`. -/
def demoEntry : RegEntry :=
  { name := "demo", path := "/var/www/demo", sftpUser := "sftp_demo", createdAt := 0 }

/-- A world holding project `demo` with the single service `api`, whose
directory exists. -/
def demoWorld : World :=
  { emptyWorld with
    regFile := .doc (some [demoEntry]),
    pfiles := [("demo", .parsed
      { name := "demo", path := some "/var/www/demo", sftpUser := some "sftp_demo",
        services := [demoApiService], createdAt := 0, updatedAt := none })],
    fsPaths := ["/var/www/demo/sites/api"],
    users := ["sftp_demo"] }

/-- An oracle where PM2 knows `demo-api` but `pm2 restart demo-api` fails. -/
def restartFailOracle : Oracle :=
  { execOk := fun _ => true, pm2Ok := fun a => !(a == "restart demo-api"),
    pm2Has := fun n => n == "demo-api", sshdTestOk := true, now := 0 }

/-- One of three declared services of project `shop`. -/
def shopService (n : String) : Service :=
  { name := n, directory := "/var/www/shop/sites/" ++ n, setupCommands := [],
    command := "npm start", description := "", pm2Name := "shop-" ++ n,
    createdAt := 0, updatedAt := none }

/-- A world holding project `shop` with three declared services. -/
def shopWorld : World :=
  { emptyWorld with
    pfiles := [("shop", .parsed
      { name := "shop", path := some "/var/www/shop", sftpUser := some "sftp_shop",
        services := [shopService "a", shopService "b", shopService "c"],
        createdAt := 0, updatedAt := none })] }

/-- An oracle where exactly the supervisor stop of the second `shop` service
fails. -/
def stopBFailOracle : Oracle :=
  { execOk := fun _ => true, pm2Ok := fun a => !(a == "stop shop-b"),
    pm2Has := fun _ => true, sshdTestOk := true, now := 0 }

/-- A world whose registry document is malformed and whose only per-project
file cannot be parsed. -/
def malformedWorld : World :=
  { emptyWorld with regFile := .malformed, pfiles := [("ghost", .unparseable)] }

/-- `addService` parameters whose hyphenated names collide across projects. -/
def svcParamsBC : ServiceParams :=
  { name := "b-c", directory := "/srv/x", command := none, description := none,
    setupCommands := none }

def svcParamsC : ServiceParams :=
  { name := "c", directory := "/srv/x", command := none, description := none,
    setupCommands := none }

/-- The index at which the end marker starts inside `fenceCore`. -/
def kEnd : Nat := fenceCore.length - endMarkerL.length - 1

/-- `addService` parameters for service `api` with a relative directory. -/
def apiParams : ServiceParams :=
  { name := "api", directory := "api", command := some "node server.js",
    description := none, setupCommands := none }

/-- `addService` parameters whose relative directory `./api` is not in
normal form. -/
def dotApiParams : ServiceParams :=
  { name := "api", directory := "./api", command := some "node server.js",
    description := none, setupCommands := none }

/-- An oracle where every command succeeds and PM2 knows `demo-api`. -/
def demoHasOracle : Oracle :=
  { execOk := fun _ => true, pm2Ok := fun _ => true,
    pm2Has := fun n => n == "demo-api", sshdTestOk := true, now := 0 }

/-- The `pm2 stop` commands occurring in an effect trace, in order. -/
def stopCmds (fx : List Effect) : List String :=
  fx.filterMap (fun e => match e with
    | .pm2 a _ => if leadsWith "stop ".toList a.toList then some a else none
    | _ => none)

set_option maxRecDepth 100000

theorem leadsWith_length_le {pat s : List Char} (h : leadsWith pat s = true) :
    pat.length ≤ s.length := by
  induction pat generalizing s with
  | nil => simp
  | cons a as ih =>
    cases s with
    | nil => simp [leadsWith] at h
    | cons b bs =>
      simp only [leadsWith, Bool.and_eq_true] at h
      simpa using Nat.succ_le_succ (ih h.2)

theorem leadsWith_append {pat x : List Char} (y : List Char)
    (h : leadsWith pat x = true) : leadsWith pat (x ++ y) = true := by
  induction pat generalizing x with
  | nil => simp [leadsWith]
  | cons a as ih =>
    cases x with
    | nil => simp [leadsWith] at h
    | cons b bs =>
      simp only [leadsWith, Bool.and_eq_true] at h
      simpa [leadsWith, h.1] using ih h.2

theorem leadsWith_append_of_le {pat x : List Char} (y : List Char)
    (h : pat.length ≤ x.length) : leadsWith pat (x ++ y) = leadsWith pat x := by
  induction pat generalizing x with
  | nil => simp [leadsWith]
  | cons a as ih =>
    cases x with
    | nil => simp at h
    | cons b bs =>
      have h' : as.length ≤ bs.length := by
        simp only [List.length_cons] at h; omega
      show (a == b && leadsWith as (bs ++ y)) = (a == b && leadsWith as bs)
      rw [ih h']

theorem leadsWith_nl_le {pat x y : List Char} (hnl : '\n' ∉ pat)
    (h : leadsWith pat (x ++ '\n' :: y) = true) : pat.length ≤ x.length := by
  induction pat generalizing x with
  | nil => simp
  | cons a as ih =>
    cases x with
    | nil =>
      simp only [List.nil_append, leadsWith, Bool.and_eq_true, beq_iff_eq] at h
      exact absurd (h.1 ▸ List.mem_cons_self a as) hnl
    | cons b bs =>
      simp only [List.cons_append, leadsWith, Bool.and_eq_true] at h
      have := ih (fun hm => hnl (List.mem_cons_of_mem a hm)) h.2
      simpa using Nat.succ_le_succ this

theorem leadsWith_nl_eq {pat x y : List Char} (hnl : '\n' ∉ pat) :
    leadsWith pat (x ++ '\n' :: y) = leadsWith pat x := by
  by_cases hlw : leadsWith pat (x ++ '\n' :: y) = true
  · rw [hlw]
    have hle := leadsWith_nl_le hnl hlw
    rw [← leadsWith_append_of_le ('\n' :: y) hle, hlw]
  · rw [Bool.not_eq_true] at hlw
    rw [hlw]
    by_cases h2 : leadsWith pat x = true
    · exact absurd (leadsWith_append ('\n' :: y) h2) (by simp [hlw])
    · simp [Bool.not_eq_true] at h2
      rw [h2]

theorem firstMatch?_of_leadsWith {pat s : List Char}
    (h : leadsWith pat s = true) : firstMatch? pat s = some 0 := by
  cases s <;> simp [firstMatch?, h]

theorem firstMatch?_eq_none {pat s : List Char} (hne : pat ≠ [])
    (h : countOccur pat s = 0) : firstMatch? pat s = none := by
  induction s with
  | nil =>
    cases pat with
    | nil => exact absurd rfl hne
    | cons a as => simp [firstMatch?, leadsWith]
  | cons c s ih =>
    simp only [countOccur] at h
    have h1 : leadsWith pat (c :: s) = false := by
      by_cases hb : leadsWith pat (c :: s) = true
      · simp [hb] at h
      · simpa [Bool.not_eq_true] using hb
    have h2 : countOccur pat s = 0 := by
      simpa [h1] using h
    simp [firstMatch?, h1, ih h2]

theorem countOccur_append_zero {pat a b : List Char}
    (h : countOccur pat (a ++ b) = 0) : countOccur pat a = 0 := by
  induction a with
  | nil => simp [countOccur]
  | cons c a ih =>
    simp only [List.cons_append, countOccur] at h
    have h1 : leadsWith pat (c :: (a ++ b)) = false := by
      by_cases hb : leadsWith pat (c :: (a ++ b)) = true
      · simp [hb] at h
      · simpa [Bool.not_eq_true] using hb
    have h2 : countOccur pat (a ++ b) = 0 := by simpa [h1] using h
    have h3 : leadsWith pat (c :: a) = false := by
      by_cases hb : leadsWith pat (c :: a) = true
      · have := leadsWith_append b hb
        simp only [List.cons_append] at this
        rw [this] at h1; exact absurd h1 (by simp)
      · simpa [Bool.not_eq_true] using hb
    simp [countOccur, h3, ih h2]

theorem countOccur_append_nl {pat : List Char} (hnl : '\n' ∉ pat)
    (hne : pat ≠ []) (a b : List Char) :
    countOccur pat (a ++ '\n' :: b) = countOccur pat a + countOccur pat b := by
  induction a with
  | nil =>
    cases pat with
    | nil => exact absurd rfl hne
    | cons p ps =>
      have hp : (p == '\n') = false := by
        have : p ≠ '\n' := fun he => hnl (he ▸ List.mem_cons_self p ps)
        simpa using this
      simp [countOccur, leadsWith, hp]
  | cons c a ih =>
    have heq : leadsWith pat (c :: (a ++ '\n' :: b)) = leadsWith pat (c :: a) := by
      have h0 := @leadsWith_nl_eq pat (c :: a) b hnl
      exact h0
    show (if leadsWith pat (c :: (a ++ '\n' :: b)) = true then 1 else 0)
        + countOccur pat (a ++ '\n' :: b)
      = ((if leadsWith pat (c :: a) = true then 1 else 0) + countOccur pat a)
        + countOccur pat b
    rw [heq, ih]
    omega

theorem firstMatch?_some_le {pat x : List Char} {i : Nat}
    (h : firstMatch? pat x = some i) : pat.length + i ≤ x.length := by
  induction x generalizing i with
  | nil =>
    cases pat with
    | nil => simp [firstMatch?, leadsWith] at h; omega
    | cons a as => simp [firstMatch?, leadsWith] at h
  | cons c s ih =>
    by_cases hl : leadsWith pat (c :: s) = true
    · rw [firstMatch?, if_pos hl] at h
      have hle := leadsWith_length_le hl
      simp only [Option.some.injEq] at h
      omega
    · rw [firstMatch?, if_neg hl] at h
      obtain ⟨j, hj, rfl⟩ := Option.map_eq_some'.mp h
      have := ih hj
      simp only [List.length_cons]
      omega

theorem firstMatch?_append_some {pat x y : List Char} {i : Nat}
    (h : firstMatch? pat x = some i) : firstMatch? pat (x ++ y) = some i := by
  induction x generalizing i with
  | nil =>
    cases pat with
    | nil =>
      have h0 : i = 0 := by simpa [firstMatch?, leadsWith] using h.symm
      subst h0
      cases y <;> simp [firstMatch?, leadsWith]
    | cons a as => simp [firstMatch?, leadsWith] at h
  | cons c s ih =>
    by_cases hl : leadsWith pat (c :: s) = true
    · have hi : i = 0 := by
        rw [firstMatch?, if_pos hl] at h
        simpa using h.symm
      subst hi
      have hl2 : leadsWith pat (c :: (s ++ y)) = true := by
        have h0 := @leadsWith_append pat (c :: s) y hl
        exact h0
      show firstMatch? pat (c :: (s ++ y)) = some 0
      rw [firstMatch?, if_pos hl2]
    · rw [firstMatch?, if_neg hl] at h
      obtain ⟨j, hj, rfl⟩ := Option.map_eq_some'.mp h
      have hb := firstMatch?_some_le hj
      have hle : pat.length ≤ (c :: s).length := by
        simp only [List.length_cons]; omega
      have hl2 : leadsWith pat (c :: (s ++ y)) = leadsWith pat (c :: s) := by
        have heq := @leadsWith_append_of_le pat (c :: s) y hle
        exact heq
      show firstMatch? pat (c :: (s ++ y)) = some (j + 1)
      rw [firstMatch?, hl2, if_neg hl, ih hj]
      rfl

theorem firstMatch?_append_nl {pat : List Char} (hnl : '\n' ∉ pat)
    (hne : pat ≠ []) {a : List Char} (b : List Char)
    (h : countOccur pat a = 0) :
    firstMatch? pat (a ++ '\n' :: b) =
      (firstMatch? pat b).map (· + (a.length + 1)) := by
  induction a with
  | nil =>
    cases pat with
    | nil => exact absurd rfl hne
    | cons p ps =>
      have hp : (p == '\n') = false := by
        have hne' : p ≠ '\n' := fun he => hnl (he ▸ List.mem_cons_self p ps)
        simpa using hne'
      have hlw : leadsWith (p :: ps) ('\n' :: b) = false := by
        simp [leadsWith, hp]
      show firstMatch? (p :: ps) ('\n' :: b)
        = (firstMatch? (p :: ps) b).map (· + (List.length [] + 1))
      rw [firstMatch?, hlw]
      cases firstMatch? (p :: ps) b <;> simp
  | cons c a ih =>
    simp only [countOccur] at h
    have h1 : leadsWith pat (c :: a) = false := by
      by_cases hb : leadsWith pat (c :: a) = true
      · simp [hb] at h
      · simpa [Bool.not_eq_true] using hb
    have h2 : countOccur pat a = 0 := by simpa [h1] using h
    have heq : leadsWith pat (c :: (a ++ '\n' :: b)) = leadsWith pat (c :: a) := by
      have h0 := @leadsWith_nl_eq pat (c :: a) b hnl
      exact h0
    show firstMatch? pat (c :: (a ++ '\n' :: b))
      = (firstMatch? pat b).map (· + (List.length (c :: a) + 1))
    rw [firstMatch?, heq, if_neg (by simp [h1]), ih h2]
    cases firstMatch? pat b <;> simp <;> omega

theorem dropWhile_suffix_ex (p : Char → Bool) (l : List Char) :
    ∃ u, u ++ List.dropWhile p l = l := by
  induction l with
  | nil => exact ⟨[], rfl⟩
  | cons c l ih =>
    by_cases hc : p c = true
    · obtain ⟨u, hu⟩ := ih
      exact ⟨c :: u, by simp [List.dropWhile, hc, hu]⟩
    · exact ⟨[], by simp [List.dropWhile, hc]⟩

theorem trimEnd_front_ex (s : List Char) : ∃ t, trimEnd s ++ t = s := by
  obtain ⟨u, hu⟩ := dropWhile_suffix_ex isJsSpace s.reverse
  refine ⟨u.reverse, ?_⟩
  have : (u ++ List.dropWhile isJsSpace s.reverse).reverse = s.reverse.reverse := by
    rw [hu]
  simpa [trimEnd, List.reverse_append] using this

theorem countOccur_trimEnd_zero {pat s : List Char}
    (h : countOccur pat s = 0) : countOccur pat (trimEnd s) = 0 := by
  obtain ⟨t, ht⟩ := trimEnd_front_ex s
  exact countOccur_append_zero (ht ▸ h)

/-! Concrete facts about the markers and the generated fence. -/

theorem fence_shape : sftpFenceText.toList = '\n' :: fenceCore := by decide

theorem markerL_nl : '\n' ∉ markerL := by decide

theorem endMarkerL_nl : '\n' ∉ endMarkerL := by decide

theorem markerL_ne : markerL ≠ [] := by decide

theorem endMarkerL_ne : endMarkerL ≠ [] := by decide

theorem countOccur_marker_core : countOccur markerL fenceCore = 1 := by decide

theorem countOccur_endMarker_core : countOccur endMarkerL fenceCore = 1 := by decide

theorem firstMatch_end_core : firstMatch? endMarkerL fenceCore = some kEnd := by decide

theorem drop_end_core : fenceCore.drop (kEnd + endMarkerL.length) = ['\n'] := by decide

theorem leadsWith_marker_core : leadsWith markerL fenceCore = true := by decide

theorem generateSftpConfig_nil : generateSftpConfig [] = [] := rfl

theorem generateSftpConfig_ne_nil {ps : List RegEntry} (h : ps ≠ []) :
    generateSftpConfig ps = '\n' :: fenceCore := by
  cases ps with
  | nil => exact absurd rfl h
  | cons p ps =>
    show (if (p :: ps).isEmpty then [] else sftpFenceText.toList) = '\n' :: fenceCore
    rw [List.isEmpty_cons, if_neg (by simp)]
    exact fence_shape

theorem countOccur_nl_cons {pat : List Char} (hnl : '\n' ∉ pat) (hne : pat ≠ [])
    (b : List Char) : countOccur pat ('\n' :: b) = countOccur pat b := by
  have h := countOccur_append_nl hnl hne [] b
  simpa [countOccur] using h

theorem countOccur_finish {x : List Char} (hx : fenceFree x) {ps : List RegEntry}
    (h : ps ≠ []) :
    countOccur markerL (trimEnd x ++ generateSftpConfig ps) = 1 ∧
    countOccur endMarkerL (trimEnd x ++ generateSftpConfig ps) = 1 := by
  rw [generateSftpConfig_ne_nil h]
  constructor
  · rw [countOccur_append_nl markerL_nl markerL_ne, countOccur_trimEnd_zero hx.1,
      countOccur_marker_core]
  · rw [countOccur_append_nl endMarkerL_nl endMarkerL_ne,
      countOccur_trimEnd_zero hx.2, countOccur_endMarker_core]

theorem countOccur_finish_nil {x : List Char} (hx : fenceFree x) :
    countOccur markerL (trimEnd x ++ generateSftpConfig []) = 0 ∧
    countOccur endMarkerL (trimEnd x ++ generateSftpConfig []) = 0 := by
  simp only [generateSftpConfig_nil, List.append_nil]
  exact ⟨countOccur_trimEnd_zero hx.1, countOccur_trimEnd_zero hx.2⟩

theorem stripOldFence_of_fenceFree {s : List Char} (h : fenceFree s) :
    stripOldFence s = s := by
  unfold stripOldFence
  rw [firstMatch?_eq_none markerL_ne h.1, firstMatch?_eq_none endMarkerL_ne h.2]

theorem stripOldFence_fenced {A B : List Char} (hA : fenceFree A) :
    stripOldFence (A ++ sftpFenceText.toList ++ B) = A ++ '\n' :: '\n' :: B := by
  have hshape : A ++ sftpFenceText.toList ++ B = A ++ '\n' :: (fenceCore ++ B) := by
    rw [fence_shape, List.append_assoc]
    rfl
  rw [hshape]
  have hm : firstMatch? markerL (A ++ '\n' :: (fenceCore ++ B)) = some (A.length + 1) := by
    rw [firstMatch?_append_nl markerL_nl markerL_ne (fenceCore ++ B) hA.1,
      firstMatch?_of_leadsWith (leadsWith_append B leadsWith_marker_core)]
    simp
  have he : firstMatch? endMarkerL (A ++ '\n' :: (fenceCore ++ B))
      = some (kEnd + (A.length + 1)) := by
    rw [firstMatch?_append_nl endMarkerL_nl endMarkerL_ne (fenceCore ++ B) hA.2,
      firstMatch?_append_some firstMatch_end_core]
    rfl
  unfold stripOldFence
  rw [hm, he]
  show List.take (A.length + 1) (A ++ '\n' :: (fenceCore ++ B))
      ++ List.drop (kEnd + (A.length + 1) + endMarkerL.length)
          (A ++ '\n' :: (fenceCore ++ B))
    = A ++ '\n' :: '\n' :: B
  have htake : (A ++ '\n' :: (fenceCore ++ B)).take (A.length + 1) = A ++ ['\n'] := by
    rw [List.take_append_eq_append_take, List.take_of_length_le (by omega)]
    congr 1
    have h1 : A.length + 1 - A.length = 1 := by omega
    rw [h1]
    rfl
  have hdrop : (A ++ '\n' :: (fenceCore ++ B)).drop
      (kEnd + (A.length + 1) + endMarkerL.length) = '\n' :: B := by
    rw [List.drop_append_eq_append_drop, List.drop_eq_nil_of_le (by omega),
      List.nil_append]
    have h1 : kEnd + (A.length + 1) + endMarkerL.length - A.length
        = (kEnd + endMarkerL.length) + 1 := by omega
    rw [h1, List.drop_succ_cons, List.drop_append_eq_append_drop, drop_end_core]
    have h2 : kEnd + endMarkerL.length - fenceCore.length = 0 := by decide
    rw [h2]
    rfl
  rw [htake, hdrop]
  simp

theorem fenceFree_join {A B : List Char} (hA : fenceFree A) (hB : fenceFree B) :
    fenceFree (A ++ '\n' :: '\n' :: B) := by
  constructor
  · rw [countOccur_append_nl markerL_nl markerL_ne A ('\n' :: B), hA.1,
      countOccur_nl_cons markerL_nl markerL_ne, hB.1]
  · rw [countOccur_append_nl endMarkerL_nl endMarkerL_ne A ('\n' :: B), hA.2,
      countOccur_nl_cons endMarkerL_nl endMarkerL_ne, hB.2]

/-- C1: for every prior sshd config content that is well formed with respect
to the fence (it contains no marker at all, or it is `A ++ fence ++ B` with
marker-free `A` and `B`), `updateSSHConfig` with a non-empty project list
produces a content with exactly one occurrence of each fence marker — the old
fence is fully excised before the new one is appended; with an empty project
list, however, `generateSftpConfig` returns the empty string and the
resulting content contains no marker at all. -/
theorem updateSSHConfig_fence_count (prior : List Char) (ps : List RegEntry)
    (h : fenceFree prior ∨
      ∃ A B, prior = A ++ sftpFenceText.toList ++ B ∧ fenceFree A ∧ fenceFree B) :
    (ps ≠ [] →
      countOccur markerL (updateSSHConfigContent prior ps) = 1 ∧
      countOccur endMarkerL (updateSSHConfigContent prior ps) = 1) ∧
    (countOccur markerL (updateSSHConfigContent prior []) = 0 ∧
      countOccur endMarkerL (updateSSHConfigContent prior []) = 0) := by
  have hstrip : fenceFree (stripOldFence prior) := by
    rcases h with hf | ⟨A, B, rfl, hA, hB⟩
    · rw [stripOldFence_of_fenceFree hf]; exact hf
    · rw [stripOldFence_fenced hA]; exact fenceFree_join hA hB
  exact ⟨fun hne => countOccur_finish hstrip hne, countOccur_finish_nil hstrip⟩

theorem updateSSHConfig_fence_count_witness :
    countOccur markerL (updateSSHConfigContent [] [demoEntry]) = 1 ∧
    countOccur endMarkerL (updateSSHConfigContent [] [demoEntry]) = 1 :=
  (updateSSHConfig_fence_count [] [demoEntry] (Or.inl (by decide))).1 (by decide)

/-- Counterexample to C1 as stated: deleting the last project calls
`updateSSHConfig` with an empty list; the call completes successfully (no
error, the daemon is restarted) yet the resulting file contains zero
occurrences of the start marker, not one. -/
theorem updateSSHConfig_fence_count_cex :
    (updateSSHConfigW okOracle [] emptyWorld).2.2 = none ∧
    ¬ countOccur markerL (updateSSHConfigW okOracle [] emptyWorld).1.sshConfig = 1 := by
  decide

/-- C2: `updateSSHConfig` always copies the config file to a timestamped
backup before writing the new content; it then validates the written config
with `sshd -t`; a failed validation raises `invalidSSHConfig` and no restart
command is ever executed; a restart of the daemon is attempted exactly when
the validation succeeds. -/
theorem updateSSHConfig_backup_validate_restart (o : Oracle) (ps : List RegEntry)
    (w : World) :
    ((updateSSHConfigW o ps w).2.1 =
      [Effect.copyFile SSH_CONFIG_PATH (SSH_CONFIG_PATH ++ ".backup." ++ toString o.now),
       Effect.writeFile SSH_CONFIG_PATH, Effect.sshdTest o.sshdTestOk]
        ++ (if o.sshdTestOk then (restartSSHW o).1 else [])) ∧
    (o.sshdTestOk = false →
      (updateSSHConfigW o ps w).2.2 = some .invalidSSHConfig ∧
      ∀ c b, Effect.exec c b ∉ (updateSSHConfigW o ps w).2.1) ∧
    (o.sshdTestOk = true →
      ∃ b, Effect.exec "systemctl restart sshd" b ∈ (updateSSHConfigW o ps w).2.1) := by
  refine ⟨?_, fun hf => ?_, fun ht => ?_⟩
  · by_cases hok : o.sshdTestOk <;>
      simp [updateSSHConfigW, writeSSHConfigW, testSSHConfigW, hok]
  · refine ⟨by simp [updateSSHConfigW, writeSSHConfigW, testSSHConfigW, hf], ?_⟩
    intro c b
    simp [updateSSHConfigW, writeSSHConfigW, testSSHConfigW, hf]
  · by_cases h1 : o.execOk "systemctl restart sshd" = true
    · exact ⟨true, by
        simp [updateSSHConfigW, writeSSHConfigW, testSSHConfigW, restartSSHW, ht, h1]⟩
    · rw [Bool.not_eq_true] at h1
      by_cases h2 : o.execOk "systemctl restart ssh" = true
      · exact ⟨false, by
          simp [updateSSHConfigW, writeSSHConfigW, testSSHConfigW, restartSSHW, ht, h1, h2]⟩
      · rw [Bool.not_eq_true] at h2
        exact ⟨false, by
          simp [updateSSHConfigW, writeSSHConfigW, testSSHConfigW, restartSSHW, ht, h1, h2]⟩

theorem updateSSHConfig_backup_validate_restart_witness :
    (updateSSHConfigW testFailOracle [] emptyWorld).2.2 = some .invalidSSHConfig ∧
    (∀ c b, Effect.exec c b ∉ (updateSSHConfigW testFailOracle [] emptyWorld).2.1) :=
  (updateSSHConfig_backup_validate_restart testFailOracle [] emptyWorld).2.1 rfl

/-- C3 (amended): for every name already present in the registry document,
`createProject` fails and leaves the whole world state unchanged with no
effect issued — no directory, no OS user, registry and SSH config untouched.
The error is the duplicate error whenever the name passes the identifier
validation; a registered name that does not match the pattern fails with the
validation error instead (the pattern check runs first). -/
theorem createProject_duplicate (o : Oracle) (projectName password : String)
    (w : World) (l : List RegEntry) (hreg : w.regFile = .doc (some l))
    (hdup : l.any (fun p => p.name == projectName) = true) :
    createProjectW o projectName password w =
      (w, [], some (if validName projectName then Err.duplicateProject projectName
        else Err.invalidProjectName)) := by
  have hfind : (l.find? (fun p => p.name == projectName)).isSome = true := by
    rw [List.find?_isSome]
    simpa using List.any_eq_true.mp hdup
  by_cases hv : validName projectName
  · simp [createProjectW, hv, loadProjectsW, initConfigDirW, hreg, hfind]
  · rw [Bool.not_eq_true] at hv
    simp [createProjectW, hv]

theorem createProject_duplicate_witness :
    createProjectW okOracle "demo" "pw" demoWorld
      = (demoWorld, [], some (if validName "demo" then Err.duplicateProject "demo"
          else Err.invalidProjectName)) :=
  createProject_duplicate okOracle "demo" "pw" demoWorld [demoEntry] rfl (by decide)

/-- Counterexample to C3 as stated: with a registry document that contains
the (hand-edited) name `9bad`, `createProject "9bad"` fails with the name
validation error, not the duplicate error — the pattern check runs before the
duplicate check and `loadProjects` does not validate the stored names.  The
state is still left unchanged. -/
theorem createProject_duplicate_cex :
    createProjectW okOracle "9bad" "pw" regWorld9bad
      = (regWorld9bad, [], some Err.invalidProjectName) ∧
    Err.invalidProjectName ≠ Err.duplicateProject "9bad" := by decide

theorem loadProjectsW_doc {w : World} {l : List RegEntry}
    (h : w.regFile = .doc (some l)) : loadProjectsW w = (w, [], l) := by
  simp [loadProjectsW, initConfigDirW, h]

theorem saveProjectsW_doc {w : World} {l : List RegEntry}
    (h : w.regFile = .doc (some l)) (ps : List RegEntry) :
    saveProjectsW ps w
      = ({ w with regFile := .doc (some ps) }, [.writeFile PROJECTS_CONFIG_FILE]) := by
  simp [saveProjectsW, initConfigDirW, h]

theorem updateSSHConfigW_world (o : Oracle) (ps : List RegEntry) (w : World) :
    (updateSSHConfigW o ps w).1
      = { w with sshConfig := updateSSHConfigContent w.sshConfig ps } := by
  by_cases hok : o.sshdTestOk = true
  · simp [updateSSHConfigW, writeSSHConfigW, testSSHConfigW, hok]
  · rw [Bool.not_eq_true] at hok
    simp [updateSSHConfigW, writeSSHConfigW, testSSHConfigW, hok]

theorem deleteSftpUserW_ok (o : Oracle) (projectName : String) (w : World)
    (hud : o.execOk ("userdel " ++ (SFTP_USER_PRE ++ projectName)) = true) :
    ∃ w2 fx, deleteSftpUserW o projectName w = (w2, fx, none) ∧
      w2.regFile = w.regFile ∧ w2.sshConfig = w.sshConfig ∧
      w2.pfiles = w.pfiles ∧ w2.fsPaths = w.fsPaths := by
  by_cases hu : (SFTP_USER_PRE ++ projectName) ∈ w.users
  · exact ⟨{ w with users := w.users.filter (fun u => u != (SFTP_USER_PRE ++ projectName)) },
      [.exec ("pkill -u " ++ (SFTP_USER_PRE ++ projectName))
          (o.execOk ("pkill -u " ++ (SFTP_USER_PRE ++ projectName))),
       .exec ("userdel " ++ (SFTP_USER_PRE ++ projectName)) true],
      by simp [deleteSftpUserW, hu, hud], rfl, rfl, rfl, rfl⟩
  · exact ⟨w, [.logWarn ("utilisateur absent: " ++ (SFTP_USER_PRE ++ projectName))],
      by simp [deleteSftpUserW, hu], rfl, rfl, rfl, rfl⟩

/-- C4: in `deleteProject`, the removal of the project from the registry and
the regeneration of the SSH config happen for every outcome of the PM2
best-effort loop, whether or not the SFTP user exists and whether or not the
`pkill` of its processes fails (those are the partial-failure modes of
`deleteSftpUser`; only the `userdel` command itself is assumed to succeed),
and for every `deleteFiles` flag and every `sshd -t`/restart outcome. -/
theorem deleteProject_cleanup (o : Oracle) (projectName : String) (deleteFiles : Bool)
    (w : World) (l : List RegEntry)
    (hreg : w.regFile = .doc (some l))
    (hmem : (l.find? (fun p => p.name == projectName)).isSome = true)
    (hud : o.execOk ("userdel " ++ (SFTP_USER_PRE ++ projectName)) = true) :
    (deleteProjectW o projectName deleteFiles w).1.regFile
        = .doc (some (l.filter (fun p => p.name != projectName))) ∧
    (deleteProjectW o projectName deleteFiles w).1.sshConfig
        = updateSSHConfigContent w.sshConfig (l.filter (fun p => p.name != projectName)) := by
  obtain ⟨pr, hpr⟩ := Option.isSome_iff_exists.mp hmem
  obtain ⟨w2, fx3, hdel, hrf2, hsc2, hpf2, hfs2⟩ :=
    deleteSftpUserW_ok o projectName w hud
  have hload : loadProjectsW w = (w, [], l) := loadProjectsW_doc hreg
  have hload2 : loadProjectsW w2 = (w2, [], l) := loadProjectsW_doc (hrf2.trans hreg)
  have hsave := saveProjectsW_doc (hrf2.trans hreg) (l.filter (fun p => p.name != projectName))
  rcases h5 : updateSSHConfigW o (l.filter (fun p => p.name != projectName))
      { w2 with regFile := .doc (some (l.filter (fun p => p.name != projectName))) }
    with ⟨w5, fx6, err⟩
  have hw5 : w5 = { w2 with
      regFile := .doc (some (l.filter (fun p => p.name != projectName))),
      sshConfig := updateSSHConfigContent w2.sshConfig
        (l.filter (fun p => p.name != projectName)) } := by
    have h := updateSSHConfigW_world o (l.filter (fun p => p.name != projectName))
      { w2 with regFile := .doc (some (l.filter (fun p => p.name != projectName))) }
    rw [h5] at h
    simpa using h
  subst hw5
  cases err with
  | some e =>
    constructor <;>
      (simp only [deleteProjectW, hload, hpr, hdel, hload2, hsave, h5] <;> simp [hsc2])
  | none =>
    by_cases hdf : deleteFiles = true
    · by_cases hfp : (pathJoin BASE_PATH projectName) ∈ w.fsPaths
      · constructor <;>
          (simp only [deleteProjectW, hload, hpr, hdel, hload2, hsave, h5] <;>
           simp [hdf, hfp, hfs2, hsc2])
      · constructor <;>
          (simp only [deleteProjectW, hload, hpr, hdel, hload2, hsave, h5] <;>
           simp [hdf, hfp, hfs2, hsc2])
    · rw [Bool.not_eq_true] at hdf
      constructor <;>
        (simp only [deleteProjectW, hload, hpr, hdel, hload2, hsave, h5] <;>
         simp [hdf, hsc2])

theorem deleteProject_cleanup_witness :
    (deleteProjectW okOracle "demo" true demoWorld).1.regFile
        = .doc (some ([demoEntry].filter (fun p => p.name != "demo"))) ∧
    (deleteProjectW okOracle "demo" true demoWorld).1.sshConfig
        = updateSSHConfigContent demoWorld.sshConfig
            ([demoEntry].filter (fun p => p.name != "demo")) :=
  deleteProject_cleanup okOracle "demo" true demoWorld [demoEntry] rfl (by decide) (by decide)

theorem runSetupGo_ok (o : Oracle) {cmds : List String}
    (h : ∀ c ∈ cmds, o.execOk c = true) :
    runSetupGo o cmds = (cmds.map (fun c => Effect.exec c true), none) := by
  induction cmds with
  | nil => rfl
  | cons c rest ih =>
    have hc := h c (List.mem_cons_self c rest)
    have hr := ih (fun d hd => h d (List.mem_cons_of_mem c hd))
    simp [runSetupGo, hc, hr]

/-- C5 (amended): on a declared service, `startService` fails when the
service directory does not exist; otherwise (with the setup step succeeding
or skipped) it queries the supervisor list and issues `pm2 restart <pm2Name>`
when an entry named `pm2Name` is present and `pm2 start "<command>" --name
"<pm2Name>" --cwd "<directory>"` when it is absent; in both branches the
`pm2 save` persistence step is issued right afterwards whenever that command
succeeds — but a failing restart/start command raises before the save, so
the supervisor state is then not persisted. -/
theorem startService_behavior (o : Oracle) (w : World)
    (projectName serviceName : String) (runSetup : Bool) (svc : Service)
    (fx1 : List Effect) (nm : String)
    (hsvc : getServiceW o w projectName serviceName = some svc)
    (hsetup : (if runSetup then runSetupGo o svc.setupCommands else ([], none))
        = (fx1, none))
    (hnm : nm = pm2NameOf projectName serviceName svc) :
    (svc.directory ∈ w.fsPaths →
      ((o.pm2Has nm = true →
          startServiceW o projectName serviceName runSetup w
            = (fx1 ++ [.pm2 "jlist" true,
                .pm2 ("restart " ++ nm) (o.pm2Ok ("restart " ++ nm))]
                ++ (if o.pm2Ok ("restart " ++ nm) then [.pm2 "save" (o.pm2Ok "save")]
                    else []),
              if o.pm2Ok ("restart " ++ nm) = false
                then some (.pm2Failed ("restart " ++ nm))
                else if o.pm2Ok "save" then none
                else some (.pm2Failed "save"))) ∧
       (o.pm2Has nm = false →
          startServiceW o projectName serviceName runSetup w
            = (fx1 ++ [.pm2 "jlist" true,
                .pm2 (pm2StartArgs svc.command nm svc.directory)
                  (o.pm2Ok (pm2StartArgs svc.command nm svc.directory))]
                ++ (if o.pm2Ok (pm2StartArgs svc.command nm svc.directory)
                    then [.pm2 "save" (o.pm2Ok "save")] else []),
              if o.pm2Ok (pm2StartArgs svc.command nm svc.directory) = false
                then some (.pm2Failed (pm2StartArgs svc.command nm svc.directory))
                else if o.pm2Ok "save" then none
                else some (.pm2Failed "save"))))) ∧
    (svc.directory ∉ w.fsPaths →
      startServiceW o projectName serviceName runSetup w
        = ([], some (.serviceDirMissing svc.directory))) := by
  subst hnm
  constructor
  · intro hdir
    constructor
    · intro hhas
      by_cases hr : o.pm2Ok ("restart " ++ pm2NameOf projectName serviceName svc) = true
      · simp [startServiceW, hsvc, hdir, hsetup, getPm2ProcessStatusW, hhas,
          pm2CommandW, hr]
      · rw [Bool.not_eq_true] at hr
        simp [startServiceW, hsvc, hdir, hsetup, getPm2ProcessStatusW, hhas,
          pm2CommandW, hr]
    · intro hhas
      by_cases hr : o.pm2Ok
          (pm2StartArgs svc.command (pm2NameOf projectName serviceName svc)
            svc.directory) = true
      · simp [startServiceW, hsvc, hdir, hsetup, getPm2ProcessStatusW, hhas,
          pm2CommandW, hr]
      · rw [Bool.not_eq_true] at hr
        simp [startServiceW, hsvc, hdir, hsetup, getPm2ProcessStatusW, hhas,
          pm2CommandW, hr]
  · intro hdir
    simp [startServiceW, hsvc, hdir]

theorem startService_behavior_witness :
    startServiceW demoHasOracle "demo" "api" false demoWorld
      = ([Effect.pm2 "jlist" true, Effect.pm2 "restart demo-api" true,
          Effect.pm2 "save" true], none) := by
  have h := startService_behavior demoHasOracle demoWorld "demo" "api" false
    demoApiService [] "demo-api" (by decide) rfl (by decide)
  rw [(h.1 (by decide)).1 (by decide)]
  decide

/-- Counterexample to C5 as stated: with the declared service `demo-api`
present in the supervisor list but the restart command failing, the restart
is issued and `startService` raises — and no `pm2 save` is ever issued, so
the "supervisor state is persisted afterwards in both branches" part of the
claim does not hold on the failure path. -/
theorem startService_behavior_cex :
    (startServiceW restartFailOracle "demo" "api" false demoWorld).2
        = some (Err.pm2Failed "restart demo-api") ∧
    Effect.pm2 "restart demo-api" false
        ∈ (startServiceW restartFailOracle "demo" "api" false demoWorld).1 ∧
    (∀ b, Effect.pm2 "save" b
        ∉ (startServiceW restartFailOracle "demo" "api" false demoWorld).1) := by
  decide

/-- C6: `loadProjects` returns `[]` after logging an error whenever the
registry document is unreadable or malformed (never raising — the try/catch
is part of the embedded definition), and `loadProjectConfig` returns the
fresh default config (`services: []`, current timestamp) whenever the
per-project file is absent or unparseable, never raising. -/
theorem load_degrades (w : World) (projectName : String) (now : Nat) :
    ((w.regFile = .unreadable ∨ w.regFile = .malformed) →
      loadProjectsW w
        = (w, [.logError "Erreur lors du chargement des projets"], [])) ∧
    ((lookupPFile w projectName = .absent ∨ lookupPFile w projectName = .unparseable) →
      (loadProjectConfigW w projectName now).2 = defaultProjectConfig projectName now ∧
      (defaultProjectConfig projectName now).services = [] ∧
      (defaultProjectConfig projectName now).createdAt = now) := by
  constructor
  · rintro (h | h) <;> simp [loadProjectsW, initConfigDirW, h]
  · rintro (h | h) <;> simp [loadProjectConfigW, h, defaultProjectConfig]

theorem load_degrades_witness :
    loadProjectsW malformedWorld
      = (malformedWorld, [.logError "Erreur lors du chargement des projets"], []) ∧
    (loadProjectConfigW malformedWorld "ghost" 42).2 = defaultProjectConfig "ghost" 42 := by
  have h := load_degrades malformedWorld "ghost" 42
  exact ⟨h.1 (Or.inr rfl), (h.2 (Or.inr (by decide))).1⟩

theorem lookupPFile_set (w : World) (projectName : String) (pf : PFile) :
    lookupPFile (setPFile w projectName pf) projectName = pf := by
  simp [lookupPFile, setPFile]

theorem splitSlash_ne_nil (x : List Char) : splitSlash x ≠ [] := by
  induction x with
  | nil => simp [splitSlash]
  | cons c rest ih =>
    by_cases hc : c = '/'
    · simp [splitSlash, hc]
    · rw [splitSlash, if_neg hc]
      cases hs : splitSlash rest with
      | nil => simp
      | cons s t => simp

theorem splitSlash_append {a : List Char} (b : List Char) (h : '/' ∉ a) :
    splitSlash (a ++ '/' :: b) = a :: splitSlash b := by
  induction a with
  | nil =>
    show splitSlash ('/' :: b) = [] :: splitSlash b
    rw [splitSlash, if_pos rfl]
  | cons c a' ih =>
    have hc : c ≠ '/' := fun he => h (he ▸ List.mem_cons_self c a')
    have ih' := ih (fun hm => h (List.mem_cons_of_mem c hm))
    show splitSlash (c :: (a' ++ '/' :: b)) = (c :: a') :: splitSlash b
    rw [splitSlash, if_neg hc, ih']

theorem intercalSlash_cons₂ (a b : List Char) (t : List (List Char)) :
    intercalSlash (a :: b :: t) = a ++ '/' :: intercalSlash (b :: t) := rfl

theorem intercalSlash_splitSlash (x : List Char) : intercalSlash (splitSlash x) = x := by
  induction x with
  | nil => rfl
  | cons c rest ih =>
    by_cases hc : c = '/'
    · subst hc
      rw [splitSlash, if_pos rfl]
      obtain ⟨s0, t0, hs⟩ := List.exists_cons_of_ne_nil (splitSlash_ne_nil rest)
      rw [hs, intercalSlash_cons₂, List.nil_append, ← hs, ih]
    · rw [splitSlash, if_neg hc]
      obtain ⟨s0, t0, hs⟩ := List.exists_cons_of_ne_nil (splitSlash_ne_nil rest)
      rw [hs]
      show intercalSlash ((c :: s0) :: t0) = c :: rest
      cases t0 with
      | nil =>
        have h3 := ih
        rw [hs] at h3
        show c :: s0 = c :: rest
        rw [show s0 = rest from h3]
      | cons u t1 =>
        have h3 := ih
        rw [hs, intercalSlash_cons₂] at h3
        show c :: (s0 ++ '/' :: intercalSlash (u :: t1)) = c :: rest
        rw [h3]

theorem splitSlash_no_slash (x : List Char) : ∀ seg ∈ splitSlash x, '/' ∉ seg := by
  induction x with
  | nil =>
    intro seg hseg
    simp [splitSlash] at hseg
    subst hseg
    simp
  | cons c rest ih =>
    intro seg hseg
    by_cases hc : c = '/'
    · rw [splitSlash, if_pos hc] at hseg
      rcases List.mem_cons.mp hseg with rfl | h2
      · simp
      · exact ih seg h2
    · rw [splitSlash, if_neg hc] at hseg
      obtain ⟨s0, t0, hs⟩ := List.exists_cons_of_ne_nil (splitSlash_ne_nil rest)
      rw [hs] at hseg
      have hseg' : seg ∈ (c :: s0) :: t0 := hseg
      rcases List.mem_cons.mp hseg' with rfl | h2
      · intro hmem
        rcases List.mem_cons.mp hmem with he | h3
        · exact hc he.symm
        · exact ih s0 (by rw [hs]; exact List.mem_cons_self s0 t0) h3
      · exact ih seg (by rw [hs]; exact List.mem_cons_of_mem s0 h2)

theorem normStack_cons (allow : Bool) (acc : List (List Char)) (seg : List Char)
    (rest : List (List Char)) :
    normStack allow acc (seg :: rest)
      = if seg = [] ∨ seg = ['.'] then normStack allow acc rest
        else if seg = ['.', '.'] then
          (match acc with
            | top :: acc' =>
              if top = ['.', '.'] then
                if allow then normStack allow (['.', '.'] :: top :: acc') rest
                else normStack allow (top :: acc') rest
              else normStack allow acc' rest
            | [] =>
              if allow then normStack allow [['.', '.']] rest
              else normStack allow [] rest)
        else normStack allow (seg :: acc) rest := rfl

theorem normStack_plain (allow : Bool) (segs : List (List Char))
    (h : ∀ seg ∈ segs, seg ≠ [] ∧ seg ≠ ['.'] ∧ seg ≠ ['.', '.']) :
    ∀ acc, normStack allow acc segs = acc.reverse ++ segs := by
  induction segs with
  | nil => intro acc; simp [normStack]
  | cons seg rest ih =>
    intro acc
    obtain ⟨h1, h2, h3⟩ := h seg (List.mem_cons_self seg rest)
    rw [normStack_cons, if_neg (by simp [h1, h2]), if_neg h3]
    rw [ih (fun t ht => h t (List.mem_cons_of_mem seg ht)) (seg :: acc)]
    simp

theorem head?_append_left {a : List Char} (b : List Char) (h : a ≠ []) :
    (a ++ b).head? = a.head? := by
  cases a with
  | nil => exact absurd rfl h
  | cons c a' => rfl

theorem revHead_append {a : List Char} (b : List Char) (h : b ≠ []) :
    (a ++ b).reverse.head? = b.reverse.head? := by
  rw [List.reverse_append]
  exact head?_append_left a.reverse (by simpa using h)

theorem intercalSlash_cons_ne_nil {a : List Char} (t : List (List Char)) (h : a ≠ []) :
    intercalSlash (a :: t) ≠ [] := by
  cases t with
  | nil => simpa [intercalSlash] using h
  | cons b t' => simp [intercalSlash_cons₂]

theorem intercalSlash_revHead (segs : List (List Char)) (hne : segs ≠ [])
    (h : ∀ seg ∈ segs, seg ≠ [] ∧ '/' ∉ seg) :
    (intercalSlash segs).reverse.head? ≠ some '/' := by
  induction segs with
  | nil => exact absurd rfl hne
  | cons a t ih =>
    obtain ⟨ha1, ha2⟩ := h a (List.mem_cons_self a t)
    cases t with
    | nil =>
      show a.reverse.head? ≠ some '/'
      cases hra : a.reverse with
      | nil => simp
      | cons c cs =>
        have hcmem : c ∈ a := by
          have hm : c ∈ a.reverse := by rw [hra]; exact List.mem_cons_self c cs
          simpa using hm
        have hcne : c ≠ '/' := fun he => ha2 (he ▸ hcmem)
        simpa using hcne
    | cons b t' =>
      have hb : b ≠ [] := (h b (List.mem_cons_of_mem a (List.mem_cons_self b t'))).1
      have hm : intercalSlash (b :: t') ≠ [] := intercalSlash_cons_ne_nil t' hb
      rw [intercalSlash_cons₂]
      rw [revHead_append ('/' :: intercalSlash (b :: t')) (by simp)]
      rw [List.reverse_cons]
      rw [head?_append_left ['/'] (by simpa using hm)]
      exact ih (by simp) (fun seg hseg => h seg (List.mem_cons_of_mem a hseg))

theorem validName_facts {pn : String} (h : validName pn = true) :
    pn.data ≠ [] ∧ '/' ∉ pn.data ∧ pn.data ≠ ['.'] ∧ pn.data ≠ ['.', '.'] := by
  rw [validName] at h
  cases hd : pn.data with
  | nil =>
    rw [hd] at h
    exact absurd (show (false : Bool) = true from h) (by decide)
  | cons c cs =>
    rw [hd] at h
    have h' : (c.isAlpha && cs.all
        (fun d => d.isAlpha || d.isDigit || d == '_' || d == '-')) = true := h
    simp only [Bool.and_eq_true] at h'
    obtain ⟨hc, hcs⟩ := h'
    refine ⟨by simp, ?_, ?_, ?_⟩
    · intro hmem
      rcases List.mem_cons.mp hmem with he | h2
      · rw [← he] at hc
        exact absurd hc (by decide)
      · have h3 := List.all_eq_true.mp hcs '/' h2
        exact absurd h3 (by decide)
    · intro he
      injection he with h1 _
      rw [h1] at hc
      exact absurd hc (by decide)
    · intro he
      injection he with h1 _
      rw [h1] at hc
      exact absurd hc (by decide)

theorem plainRel_all {d : String} (h : plainRel d = true) :
    ∀ seg ∈ splitSlash d.data, seg ≠ [] ∧ seg ≠ ['.'] ∧ seg ≠ ['.', '.'] := by
  intro seg hseg
  rw [plainRel] at h
  have h2 := List.all_eq_true.mp h seg hseg
  simp at h2
  exact ⟨h2.1.1, h2.1.2, h2.2⟩

theorem nodeNormalize_abs {s core : List Char}
    (hsne : s ≠ [])
    (habs : leadsWith ['/'] s = true)
    (htrail : (s.reverse.head? == some '/') = false)
    (hcore : intercalSlash (normStack false [] (splitSlash s)) = core)
    (hcne : core ≠ []) :
    nodeNormalize s = '/' :: core := by
  rw [nodeNormalize, if_neg hsne]
  simp only [habs, htrail, Bool.not_true, hcore]
  rw [if_neg hcne]
  simp

theorem nodeJoin_plain (pn d : String) (hpn : validName pn = true)
    (hd : plainRel d = true) :
    nodeJoin [BASE_PATH, pn, PROJECT_STRUCTURE_sites, d]
      = BASE_PATH ++ "/" ++ pn ++ "/" ++ "sites" ++ "/" ++ d := by
  obtain ⟨hpn0, hpnS, hpn1, hpn2⟩ := validName_facts hpn
  have hdseg := plainRel_all hd
  have hd0 : d.data ≠ [] := by
    intro he
    have hsp : splitSlash d.data = [[]] := by rw [he]; rfl
    have h2 := hdseg [] (by rw [hsp]; exact List.mem_cons_self [] [])
    exact h2.1 rfl
  have hdne : d ≠ "" := by
    intro he
    rw [he] at hd0
    exact hd0 rfl
  have hpnne : pn ≠ "" := by
    intro he
    rw [he] at hpn0
    exact hpn0 rfl
  have hB : ((BASE_PATH : String) != "") = true := by decide
  have hS : ((PROJECT_STRUCTURE_sites : String) != "") = true := by decide
  have hp' : (pn != "") = true := by simpa using hpnne
  have hd' : (d != "") = true := by simpa using hdne
  have hfilter : ([BASE_PATH, pn, PROJECT_STRUCTURE_sites, d].filter (fun p => p != ""))
      = [BASE_PATH, pn, PROJECT_STRUCTURE_sites, d] := by
    simp [List.filter_cons, hB, hS, hp', hd']
  have hjoin : nodeJoin [BASE_PATH, pn, PROJECT_STRUCTURE_sites, d]
      = String.mk (nodeNormalize (BASE_PATH.data
          ++ '/' :: (pn.data ++ '/' :: (PROJECT_STRUCTURE_sites.data ++ '/' :: d.data)))) := by
    rw [nodeJoin, hfilter]
    rfl
  have hsplit : splitSlash (BASE_PATH.data
        ++ '/' :: (pn.data ++ '/' :: (PROJECT_STRUCTURE_sites.data ++ '/' :: d.data)))
      = [] :: ("var".data :: ("www".data :: (pn.data
          :: ("sites".data :: splitSlash d.data)))) := by
    show splitSlash ('/' :: ("var".data ++ '/' :: ("www".data
        ++ '/' :: (pn.data ++ '/' :: ("sites".data ++ '/' :: d.data))))) = _
    rw [splitSlash, if_pos rfl]
    rw [splitSlash_append _ (by decide)]
    rw [splitSlash_append _ (by decide)]
    rw [splitSlash_append _ hpnS]
    rw [splitSlash_append _ (by decide)]
  have hplain : ∀ seg ∈ ("var".data :: ("www".data :: (pn.data
      :: ("sites".data :: splitSlash d.data)))),
      seg ≠ [] ∧ seg ≠ ['.'] ∧ seg ≠ ['.', '.'] := by
    intro seg hseg
    rcases List.mem_cons.mp hseg with rfl | hseg
    · exact ⟨by decide, by decide, by decide⟩
    rcases List.mem_cons.mp hseg with rfl | hseg
    · exact ⟨by decide, by decide, by decide⟩
    rcases List.mem_cons.mp hseg with rfl | hseg
    · exact ⟨hpn0, hpn1, hpn2⟩
    rcases List.mem_cons.mp hseg with rfl | hseg
    · exact ⟨by decide, by decide, by decide⟩
    · exact hdseg seg hseg
  have hstack : normStack false [] ([] :: ("var".data :: ("www".data :: (pn.data
        :: ("sites".data :: splitSlash d.data)))))
      = "var".data :: ("www".data :: (pn.data :: ("sites".data :: splitSlash d.data))) := by
    rw [normStack_cons, if_pos (Or.inl rfl)]
    rw [normStack_plain false _ hplain []]
    simp
  have hreassemble : intercalSlash ("var".data :: ("www".data :: (pn.data
        :: ("sites".data :: splitSlash d.data))))
      = "var".data ++ '/' :: ("www".data ++ '/' :: (pn.data
          ++ '/' :: ("sites".data ++ '/' :: d.data))) := by
    obtain ⟨s0, t0, hs⟩ := List.exists_cons_of_ne_nil (splitSlash_ne_nil d.data)
    rw [hs, intercalSlash_cons₂, intercalSlash_cons₂, intercalSlash_cons₂,
      intercalSlash_cons₂, ← hs, intercalSlash_splitSlash]
  have hdlast : d.data.reverse.head? ≠ some '/' := by
    have hround := intercalSlash_splitSlash d.data
    rw [← hround]
    refine intercalSlash_revHead _ (splitSlash_ne_nil d.data) ?_
    intro seg hseg
    exact ⟨(hdseg seg hseg).1, splitSlash_no_slash d.data seg hseg⟩
  have htrail : ((BASE_PATH.data ++ '/' :: (pn.data
        ++ '/' :: (PROJECT_STRUCTURE_sites.data ++ '/' :: d.data))).reverse.head?
      == some '/') = false := by
    rw [revHead_append ('/' :: (pn.data
        ++ '/' :: (PROJECT_STRUCTURE_sites.data ++ '/' :: d.data))) (by simp)]
    rw [List.reverse_cons]
    rw [head?_append_left ['/'] (by simp)]
    rw [revHead_append ('/' :: (PROJECT_STRUCTURE_sites.data ++ '/' :: d.data)) (by simp)]
    rw [List.reverse_cons]
    rw [head?_append_left ['/'] (by simp)]
    rw [revHead_append ('/' :: d.data) (by simp)]
    rw [List.reverse_cons]
    rw [head?_append_left ['/'] (by simpa using hd0)]
    simpa using hdlast
  have hnorm : nodeNormalize (BASE_PATH.data
        ++ '/' :: (pn.data ++ '/' :: (PROJECT_STRUCTURE_sites.data ++ '/' :: d.data)))
      = '/' :: ("var".data ++ '/' :: ("www".data ++ '/' :: (pn.data
          ++ '/' :: ("sites".data ++ '/' :: d.data)))) := by
    refine nodeNormalize_abs (by simp) ?_ htrail ?_ (by simp)
    · rfl
    · rw [hsplit, hstack, hreassemble]
  rw [hjoin, hnorm]
  refine String.ext ?_
  show '/' :: ("var".data ++ '/' :: ("www".data ++ '/' :: (pn.data
      ++ '/' :: ("sites".data ++ '/' :: d.data))))
    = (BASE_PATH ++ "/" ++ pn ++ "/" ++ "sites" ++ "/" ++ d).data
  simp only [String.data_append, List.append_assoc]
  rfl

/-- C7 (amended): `addService` followed by `getService` round-trips: the
stored and returned record is exactly the built one; an absolute directory is
stored unchanged; a relative directory is stored as the normalized Node
`path.join(BASE_PATH, projectName, 'sites', directory)`, which equals the
literal `<BASE_PATH>/<projectName>/sites/<relative>` whenever the relative
path is already in normal form (non-empty segments, none of them `.` or
`..`); a relative input such as `./api` is stored normalized instead (see the
counterexample). -/
theorem addService_getService_dir (o : Oracle) (w : World) (projectName : String)
    (p : ServiceParams)
    (hname : validName p.name = true)
    (hdup : (loadProjectConfigPure w projectName o.now).services.any
        (fun s => s.name == p.name) = false) :
    (addServiceW o projectName p w).2.2 = .ok (mkService projectName p o.now) ∧
    getServiceW o (addServiceW o projectName p w).1 projectName p.name
        = some (mkService projectName p o.now) ∧
    (startsSlash p.directory = true →
      (mkService projectName p o.now).directory = p.directory) ∧
    (startsSlash p.directory = false → validName projectName = true →
      plainRel p.directory = true →
      (mkService projectName p o.now).directory
        = BASE_PATH ++ "/" ++ projectName ++ "/" ++ "sites" ++ "/" ++ p.directory) := by
  have hadd : addServiceSvcs projectName p o.now
      (loadProjectConfigPure w projectName o.now).services
      = .ok ((loadProjectConfigPure w projectName o.now).services
          ++ [mkService projectName p o.now]) := by
    simp [addServiceSvcs, hname, hdup]
  have hnone : (loadProjectConfigPure w projectName o.now).services.find?
      (fun s => s.name == p.name) = none := by
    rw [List.find?_eq_none]
    intro s hs
    have h2 := List.any_eq_false.mp hdup s hs
    simpa using h2
  have hworld : (addServiceW o projectName p w).1
      = setPFile (if w.fsPaths.contains (resolveServiceDir projectName p.directory)
            then w
            else { w with fsPaths := w.fsPaths ++ [resolveServiceDir projectName p.directory] })
          projectName
          (.parsed { loadProjectConfigPure w projectName o.now with
            services := (loadProjectConfigPure w projectName o.now).services
              ++ [mkService projectName p o.now],
            updatedAt := some o.now }) := by
    by_cases hc : w.fsPaths.contains (resolveServiceDir projectName p.directory) = true
    · simp [addServiceW, hadd, saveProjectConfigW, hc]
    · rw [Bool.not_eq_true] at hc
      simp [addServiceW, hadd, saveProjectConfigW, hc]
  refine ⟨?_, ?_, ?_, ?_⟩
  · by_cases hc : w.fsPaths.contains (resolveServiceDir projectName p.directory) = true
    · simp [addServiceW, hadd, saveProjectConfigW, hc]
    · rw [Bool.not_eq_true] at hc
      simp [addServiceW, hadd, saveProjectConfigW, hc]
  · rw [hworld]
    unfold getServiceW loadProjectConfigPure
    rw [lookupPFile_set]
    show (((loadProjectConfigPure w projectName o.now).services
        ++ [mkService projectName p o.now]).find? (fun s => s.name == p.name))
      = some (mkService projectName p o.now)
    rw [List.find?_append, hnone]
    show ([mkService projectName p o.now].find? (fun s => s.name == p.name))
      = some (mkService projectName p o.now)
    simp [List.find?, mkService]
  · intro hs
    show resolveServiceDir projectName p.directory = p.directory
    rw [resolveServiceDir, if_pos hs]
  · intro hs hpnv hpl
    show resolveServiceDir projectName p.directory = _
    rw [resolveServiceDir, if_neg (by simp [hs])]
    exact nodeJoin_plain projectName p.directory hpnv hpl

/-- Counterexample to C7 as stated: for the relative directory `./api` under
project `demo`, `addService` stores the normalized path
`/var/www/demo/sites/api`, not the literal
`<BASE_PATH>/demo/sites/./api` — `path.join` normalizes its result. -/
theorem addService_getService_dir_cex :
    (addServiceW okOracle "demo" dotApiParams emptyWorld).2.2
        = .ok (mkService "demo" dotApiParams 0) ∧
    (mkService "demo" dotApiParams 0).directory = "/var/www/demo/sites/api" ∧
    ¬ (mkService "demo" dotApiParams 0).directory
        = "/var/www/demo/sites/" ++ "./api" :=
  ⟨rfl, by decide, by decide⟩

theorem addService_getService_dir_witness :
    getServiceW okOracle (addServiceW okOracle "demo" apiParams emptyWorld).1 "demo" "api"
      = some (mkService "demo" apiParams 0) ∧
    (mkService "demo" apiParams 0).directory = "/var/www/demo/sites/api" := by
  have h := addService_getService_dir okOracle emptyWorld "demo" apiParams
    (by decide) (by decide)
  refine ⟨h.2.1, ?_⟩
  have h4 := h.2.2.2 (by decide) (by decide) (by decide)
  calc (mkService "demo" apiParams 0).directory
      = BASE_PATH ++ "/" ++ "demo" ++ "/" ++ "sites" ++ "/" ++ apiParams.directory := h4
    _ = "/var/www/demo/sites/api" := by decide

theorem leadsWith_self (x : List Char) : leadsWith x x = true := by
  induction x with
  | nil => rfl
  | cons c cs ih => simp [leadsWith, ih]

theorem leadsWith_stop (t : String) :
    leadsWith "stop ".toList ("stop " ++ t).toList = true := by
  show leadsWith "stop ".data ("stop " ++ t).data = true
  rw [String.data_append]
  exact leadsWith_append t.data (leadsWith_self "stop ".data)

theorem find_name_self {svcs : List Service}
    (hnodup : (svcs.map (fun s => s.name)).Nodup) {s : Service} (hmem : s ∈ svcs) :
    svcs.find? (fun t => t.name == s.name) = some s := by
  induction svcs with
  | nil => cases hmem
  | cons a rest ih =>
    rcases List.mem_cons.mp hmem with rfl | hmem'
    · simp [List.find?]
    · have hne : (a.name == s.name) = false := by
        have hnot : a.name ∉ rest.map (fun t => t.name) :=
          (List.nodup_cons.mp hnodup).1
        have hin : s.name ∈ rest.map (fun t => t.name) :=
          List.mem_map_of_mem (fun t => t.name) hmem'
        have : a.name ≠ s.name := fun he => hnot (he ▸ hin)
        simpa using this
      rw [List.find?]
      rw [hne]
      exact ih (List.nodup_cons.mp hnodup).2 hmem'

theorem leadsWith_save : leadsWith "stop ".toList "save".toList = false := by decide

theorem leadsWith_stop_data (t : String) :
    leadsWith ['s', 't', 'o', 'p', ' '] ("stop " ++ t).data = true := by
  have h := leadsWith_stop t
  exact h

theorem leadsWith_save_data :
    leadsWith ['s', 't', 'o', 'p', ' '] ("save" : String).data = false := by decide

theorem stopCmds_append (a b : List Effect) :
    stopCmds (a ++ b) = stopCmds a ++ stopCmds b := by
  simp [stopCmds, List.filterMap_append]

theorem stopAllGo_cmds (o : Oracle) (w : World) (projectName : String)
    (sub : List Service)
    (hall : ∀ s ∈ sub, getServiceW o w projectName s.name = some s) :
    stopCmds (stopAllGo o w projectName sub)
      = sub.map (fun s => "stop " ++ pm2NameOf projectName s.name s) := by
  induction sub with
  | nil => rfl
  | cons s rest ih =>
    have hs := hall s (List.mem_cons_self s rest)
    have hrest := ih (fun t ht => hall t (List.mem_cons_of_mem s ht))
    have hchunk : stopCmds (match stopServiceW o w projectName s.name with
        | (fx, none) => fx
        | (fx, some _) => fx ++ [.logError ("Erreur pour " ++ s.name)])
        = ["stop " ++ pm2NameOf projectName s.name s] := by
      by_cases hok : o.pm2Ok ("stop " ++ pm2NameOf projectName s.name s) = true
      · by_cases hsv : o.pm2Ok "save" = true
        · simp [stopServiceW, hs, pm2CommandW, hok, hsv, stopCmds,
            List.filterMap_cons, leadsWith]
        · rw [Bool.not_eq_true] at hsv
          simp [stopServiceW, hs, pm2CommandW, hok, hsv, stopCmds,
            List.filterMap_cons, leadsWith]
      · rw [Bool.not_eq_true] at hok
        simp [stopServiceW, hs, pm2CommandW, hok, stopCmds,
          List.filterMap_cons, leadsWith]
    rw [stopAllGo, stopCmds_append, hchunk, hrest]
    rfl

/-- C8: `stopAllServices` issues a `pm2 stop` attempt for every declared
service of the project, in declaration order, regardless of which supervisor
commands fail (the trace of issued stop commands is exactly the declared
list); its embedding returns a plain trace with no error component because
every loop iteration of the source runs inside a try/catch that logs and
continues, so the function completes without raising. -/
theorem stopAllServices_attempts_all (o : Oracle) (w : World) (projectName : String)
    (hnodup : ((listServicesW o w projectName).map (fun s => s.name)).Nodup) :
    stopCmds (stopAllServicesW o w projectName)
      = (listServicesW o w projectName).map
          (fun s => "stop " ++ pm2NameOf projectName s.name s) := by
  by_cases hemp : (listServicesW o w projectName).isEmpty = true
  · rw [List.isEmpty_iff] at hemp
    simp [stopAllServicesW, hemp, stopCmds]
  · rw [Bool.not_eq_true] at hemp
    have hall : ∀ s ∈ listServicesW o w projectName,
        getServiceW o w projectName s.name = some s := by
      intro s hsmem
      exact find_name_self hnodup hsmem
    rw [stopAllServicesW]
    rw [if_neg (by simp [hemp])]
    exact stopAllGo_cmds o w projectName _ hall

theorem stopAllServices_attempts_all_witness :
    stopCmds (stopAllServicesW stopBFailOracle shopWorld "shop")
      = ["stop shop-a", "stop shop-b", "stop shop-c"] := by
  rw [stopAllServices_attempts_all stopBFailOracle shopWorld "shop" (by decide)]
  decide

theorem string_append_left_cancel {a b c : String} (h : a ++ b = a ++ c) : b = c := by
  have hd : a.data ++ b.data = a.data ++ c.data := by
    have h2 := congrArg String.data h
    simpa [String.data_append] using h2
  exact String.ext (List.append_cancel_left hd)

theorem applyUpdates_name (projectName : String) (u : ServiceUpdates) (now : Nat)
    (s : Service) : (applyUpdates projectName u now s).name = s.name := rfl

theorem applyUpdates_pm2Name (projectName : String) (u : ServiceUpdates) (now : Nat)
    (s : Service) : (applyUpdates projectName u now s).pm2Name = s.pm2Name := rfl

theorem updateFirstSvc_mem {sname : String} {f : Service → Service}
    {svcs svcs' : List Service} (h : updateFirstSvc sname f svcs = some svcs') :
    ∀ t ∈ svcs', ∃ s ∈ svcs, t = s ∨ t = f s := by
  induction svcs generalizing svcs' with
  | nil => simp [updateFirstSvc] at h
  | cons a rest ih =>
    by_cases ha : (a.name == sname) = true
    · rw [updateFirstSvc, if_pos ha] at h
      obtain rfl := Option.some.injEq _ _ ▸ h.symm
      intro t ht
      rcases List.mem_cons.mp ht with rfl | ht'
      · exact ⟨a, List.mem_cons_self a rest, Or.inr rfl⟩
      · exact ⟨t, List.mem_cons_of_mem a ht', Or.inl rfl⟩
    · rw [updateFirstSvc, if_neg ha] at h
      obtain ⟨l', hl', rfl⟩ := Option.map_eq_some'.mp h
      intro t ht
      rcases List.mem_cons.mp ht with rfl | ht'
      · exact ⟨t, List.mem_cons_self t rest, Or.inl rfl⟩
      · obtain ⟨s, hsm, hor⟩ := ih hl' t ht'
        exact ⟨s, List.mem_cons_of_mem a hsm, hor⟩

theorem updateFirstSvc_pairs {sname : String} {f : Service → Service}
    {svcs svcs' : List Service}
    (hf : ∀ s, (f s).name = s.name ∧ (f s).pm2Name = s.pm2Name)
    (h : updateFirstSvc sname f svcs = some svcs') :
    svcs'.map (fun s => (s.name, s.pm2Name)) = svcs.map (fun s => (s.name, s.pm2Name)) := by
  induction svcs generalizing svcs' with
  | nil => simp [updateFirstSvc] at h
  | cons a rest ih =>
    by_cases ha : (a.name == sname) = true
    · rw [updateFirstSvc, if_pos ha] at h
      obtain rfl := Option.some.injEq _ _ ▸ h.symm
      simp [(hf a).1, (hf a).2]
    · rw [updateFirstSvc, if_neg ha] at h
      obtain ⟨l', hl', rfl⟩ := Option.map_eq_some'.mp h
      simp [ih hl']

theorem removeFirstSvc_sublist {sname : String} {svcs svcs' : List Service}
    (h : removeFirstSvc sname svcs = some svcs') : List.Sublist svcs' svcs := by
  induction svcs generalizing svcs' with
  | nil => simp [removeFirstSvc] at h
  | cons a rest ih =>
    by_cases ha : (a.name == sname) = true
    · rw [removeFirstSvc, if_pos ha] at h
      obtain rfl := Option.some.injEq _ _ ▸ h.symm
      exact List.Sublist.cons a (List.Sublist.refl _)
    · rw [removeFirstSvc, if_neg ha] at h
      obtain ⟨l', hl', rfl⟩ := Option.map_eq_some'.mp h
      exact List.Sublist.cons₂ a (ih hl')

/-- C9 (amended): every service stored through `addService` carries
`pm2Name = <projectName>-<serviceName>`; `updateService` never changes a
service's `name` or `pm2Name`; hence on every reachable per-project registry
state the `pm2Name` of a service determines it uniquely **within its
project**.  (Across projects the map is not injective: hyphenated names
collide, see the counterexample.) -/
theorem pm2Name_invariant (projectName : String) (svcs : List Service)
    (h : ReachableSvcs projectName svcs) :
    (∀ s ∈ svcs, s.pm2Name = projectName ++ "-" ++ s.name) ∧
    (svcs.map (fun s => s.name)).Nodup ∧
    (∀ s ∈ svcs, ∀ t ∈ svcs, s.pm2Name = t.pm2Name → s = t) ∧
    (∀ sname u now svcs',
      updateFirstSvc sname (applyUpdates projectName u now) svcs = some svcs' →
      svcs'.map (fun s => (s.name, s.pm2Name)) = svcs.map (fun s => (s.name, s.pm2Name))) := by
  have hmain : (∀ s ∈ svcs, s.pm2Name = projectName ++ "-" ++ s.name) ∧
      (svcs.map (fun s => s.name)).Nodup := by
    induction h with
    | nil => exact ⟨by simp, by simp⟩
    | add hr hadd ih =>
      rename_i svcs0 svcs1 p now
      have hv : validName p.name = true := by
        by_contra hv
        rw [Bool.not_eq_true] at hv
        simp [addServiceSvcs, hv] at hadd
      have hdup : svcs0.any (fun s => s.name == p.name) = false := by
        by_contra hdup
        rw [Bool.not_eq_false] at hdup
        simp [addServiceSvcs, hv, hdup] at hadd
      have heq : svcs1 = svcs0 ++ [mkService projectName p now] := by
        simp [addServiceSvcs, hv, hdup] at hadd
        exact hadd.symm
      subst heq
      constructor
      · intro s hs
        rcases List.mem_append.mp hs with hs' | hs'
        · exact ih.1 s hs'
        · rcases List.mem_singleton.mp hs' with rfl
          rfl
      · rw [List.map_append]
        rw [List.nodup_append]
        refine ⟨ih.2, by simp, ?_⟩
        intro x hx
        simp only [List.map_cons, List.map_nil, List.mem_cons, List.not_mem_nil,
          or_false, mkService] at *
        intro hxname
        have hnotin := List.any_eq_false.mp hdup
        obtain ⟨s0, hs0, hs0n⟩ := List.mem_map.mp hx
        have := hnotin s0 hs0
        rw [hxname] at hs0n
        simp at this
        exact this hs0n
    | update hr hupd ih =>
      rename_i svcs0 svcs1 sname u now
      have hpairs := updateFirstSvc_pairs
        (fun s => ⟨applyUpdates_name projectName u now s, applyUpdates_pm2Name projectName u now s⟩)
        hupd
      constructor
      · intro t ht
        obtain ⟨s, hsm, hor⟩ := updateFirstSvc_mem hupd t ht
        rcases hor with rfl | rfl
        · exact ih.1 _ hsm
        · rw [applyUpdates_pm2Name, applyUpdates_name]
          exact ih.1 _ hsm
      · have hnames : svcs1.map (fun s => s.name) = svcs0.map (fun s => s.name) := by
          have h2 := congrArg (List.map Prod.fst) hpairs
          simpa [Function.comp] using h2
        rw [hnames]
        exact ih.2
    | remove hr hrem ih =>
      rename_i svcs0 svcs1 sname
      have hsub := removeFirstSvc_sublist hrem
      constructor
      · intro s hs
        exact ih.1 s (hsub.subset hs)
      · exact List.Nodup.sublist (hsub.map (fun s => s.name)) ih.2
  refine ⟨hmain.1, hmain.2, ?_, ?_⟩
  · intro s hs t ht hpm
    have h1 := hmain.1 s hs
    have h2 := hmain.1 t ht
    rw [h1, h2] at hpm
    have hname : s.name = t.name :=
      string_append_left_cancel (a := projectName ++ "-") (by
        simpa [String.append_assoc] using hpm)
    exact List.inj_on_of_nodup_map hmain.2 hs ht hname
  · intro sname u now svcs' hupd
    exact updateFirstSvc_pairs
      (fun s => ⟨applyUpdates_name projectName u now s, applyUpdates_pm2Name projectName u now s⟩)
      hupd

theorem pm2Name_invariant_witness :
    (mkService "demo" apiParams 0).pm2Name
      = "demo" ++ "-" ++ (mkService "demo" apiParams 0).name :=
  (pm2Name_invariant "demo" [mkService "demo" apiParams 0]
    (@ReachableSvcs.add "demo" [] [mkService "demo" apiParams 0] apiParams 0
      ReachableSvcs.nil rfl)).1 (mkService "demo" apiParams 0) (by decide)

/-- Counterexample to C9 as stated: two services stored through `addService`
in two different projects — service `b-c` of project `a` and service `c` of
project `a-b` — share the `pm2Name` `a-b-c`, so a `pm2Name` does not map to
exactly one (project, service) pair across projects. -/
theorem pm2Name_invariant_cex :
    addServiceSvcs "a" svcParamsBC 0 [] = .ok [mkService "a" svcParamsBC 0] ∧
    addServiceSvcs "a-b" svcParamsC 0 [] = .ok [mkService "a-b" svcParamsC 0] ∧
    (mkService "a" svcParamsBC 0).pm2Name = (mkService "a-b" svcParamsC 0).pm2Name ∧
    ¬("a" = "a-b") := ⟨rfl, rfl, rfl, by decide⟩

/-- C10: on a project with zero declared services, `startAllServices` raises
the no-service error without issuing any effect, while `stopAllServices`
returns silently — no supervisor command, no error (its embedding has no
error component because the source never raises there). -/
theorem allServices_empty_behavior (o : Oracle) (w : World) (projectName : String)
    (runSetup : Bool) (h : listServicesW o w projectName = []) :
    startAllServicesW o w projectName runSetup = ([], some .noServices) ∧
    stopAllServicesW o w projectName = [] := by
  constructor
  · simp [startAllServicesW, h]
  · simp [stopAllServicesW, h]

theorem allServices_empty_behavior_witness :
    startAllServicesW okOracle emptyWorld "demo" true = ([], some .noServices) ∧
    stopAllServicesW okOracle emptyWorld "demo" = [] :=
  allServices_empty_behavior okOracle emptyWorld "demo" true (by decide)
